import Mathlib

/-!
Verification development for a minimal software 3-D rendering pipeline
(pinhole-camera projection plus incremental edge-function triangle
rasterisation).

The Rust source is shallowly embedded: `f32` values are modelled as exact
rationals (`ℚ`), `i32`/`usize` as `ℤ`/`ℕ` (the `x as usize` cast of a
possibly negative `i32`, whose wrap-around matters for the out-of-bounds
write behaviour, is modelled with an explicit `% 2^64`), fallible
operations return `Except`, and the two imperative scan loops of
`rasterise_triangle` become structural recursions over explicit fuel with
the loop-carried edge values passed as state.
-/

/-- 3-component vector (`linear_algebra.rs`, `Vec3`), components modelled
as exact rationals. -/
structure Vec3 where
  x : ℚ
  y : ℚ
  z : ℚ
deriving DecidableEq

/-- 2-component vector: used by the camera as `Vec2<i32>` (image size) and
`Vec2<f32>` (aperture, canvas size); its definition is a plain pair of
components. -/
structure Vec2 (α : Type) where
  x : α
  y : α
deriving DecidableEq

namespace Vec3

/-- `Vec3::new` (`linear_algebra.rs`). -/
def new (x y z : ℚ) : Vec3 := ⟨x, y, z⟩

/-- `Vec3::splat` (`linear_algebra.rs`). -/
def splat (d : ℚ) : Vec3 := ⟨d, d, d⟩

end Vec3

/-- 4×4 row-major matrix (`linear_algebra.rs`, `Matrix44`). -/
structure Matrix44 where
  entry : Fin 4 → Fin 4 → ℚ

namespace Matrix44

/-- `Matrix44::identity` (`linear_algebra.rs`). -/
def identity : Matrix44 :=
  ⟨fun i j => if i = j then 1 else 0⟩

end Matrix44

/-- `Vec3::homogeneous_mult_matrix` (`linear_algebra.rs`): row-vector times
matrix with implicit homogeneous coordinate 1, followed by the perspective
divide by the fourth output component.  (In the rational model, division
by a zero fourth component yields 0 where `f32` would produce ±inf/NaN.) -/
def Vec3.homogeneous_mult_matrix (v : Vec3) (m : Matrix44) : Vec3 :=
  let out : Fin 4 → ℚ := fun i =>
    v.x * m.entry 0 i + v.y * m.entry 1 i + v.z * m.entry 2 i + m.entry 3 i
  ⟨out 0 / out 3, out 1 / out 3, out 2 / out 3⟩

/-- Modelled from the spec: the byte-channel colour type `Colour8` used by
the rasteriser and frame buffer is referenced throughout the source but its
definition is not among the given files (only the float-channel `Colour` of
`colour.rs` is).  Per the spec's data model, it has four independent
channels in byte `[0,255]` representation. -/
structure Colour8 where
  red : ℕ
  green : ℕ
  blue : ℕ
  alpha : ℕ
deriving DecidableEq

/-- Clamp a rational channel value into the byte range and truncate, as a
Rust saturating `f32 as u8` cast does (negative values clamp to 0, so
truncation towards zero and `⌊·⌋` agree on the surviving range). -/
def byteClamp (q : ℚ) : ℕ :=
  min 255 (Int.toNat ⌊q⌋)

namespace Colour8

/-- Modelled from the spec: `Colour8::multiply_float` — multiply-by-scalar
on each byte channel, used for interpolation weighting (`colour.rs` shows
the float-channel variant; the byte variant clamps back into range). -/
def multiply_float (c : Colour8) (num : ℚ) : Colour8 :=
  ⟨byteClamp (c.red * num), byteClamp (c.green * num),
   byteClamp (c.blue * num), byteClamp (c.alpha * num)⟩

/-- Modelled from the spec: addition of byte colours is saturating
(clamped to the representable range) channel-wise. -/
def add (a b : Colour8) : Colour8 :=
  ⟨min 255 (a.red + b.red), min 255 (a.green + b.green),
   min 255 (a.blue + b.blue), min 255 (a.alpha + b.alpha)⟩

end Colour8

/-- `WindingOrder` (`rasterisation.rs`). -/
inductive WindingOrder where
  | CCW
  | CW
deriving DecidableEq

/-- `VertexAttributes` (`rasterisation.rs`). -/
structure VertexAttributes where
  colour : Colour8
deriving DecidableEq

/-- `Vertex<f32>` (`rasterisation.rs`). -/
structure Vertex where
  vertex : Vec3
  attributes : VertexAttributes

/-- `Vertex::new` (`rasterisation.rs`). -/
def Vertex.new (v : Vec3) (a : VertexAttributes) : Vertex := ⟨v, a⟩

/-- `Triangle<f32>` (`rasterisation.rs`). -/
structure Triangle where
  v0 : Vertex
  v1 : Vertex
  v2 : Vertex

/-- `Range<T>` (`rasterisation.rs`). -/
structure Range (α : Type) where
  min : α
  max : α

/-- `BoundingBox<T>` (`rasterisation.rs`). -/
structure BoundingBox (α : Type) where
  x : Range α
  y : Range α

/-- `Range::find_min_max` (`rasterisation.rs`) specialised to the three
vertex coordinates it is called with: the source folds the array against
`±∞` sentinels, which over an unbounded ordered field is exactly the
three-way minimum and maximum. -/
def Range.find_min_max3 (a b c : ℚ) : Range ℚ :=
  ⟨Min.min a (Min.min b c), Max.max a (Max.max b c)⟩

/-- `Triangle::get_bounding_box` (`rasterisation.rs`). -/
def Triangle.get_bounding_box (t : Triangle) : BoundingBox ℚ :=
  ⟨Range.find_min_max3 t.v0.vertex.x t.v1.vertex.x t.v2.vertex.x,
   Range.find_min_max3 t.v0.vertex.y t.v1.vertex.y t.v2.vertex.y⟩

/-- `transform_this_triangle` (`rasterisation.rs`): the in-place form,
modelled by explicit state passing — each vertex position is replaced by
its homogeneous transform, attributes untouched. -/
def Triangle.transform_this_triangle (t : Triangle) (m : Matrix44) : Triangle :=
  { v0 := { t.v0 with vertex := t.v0.vertex.homogeneous_mult_matrix m },
    v1 := { t.v1 with vertex := t.v1.vertex.homogeneous_mult_matrix m },
    v2 := { t.v2 with vertex := t.v2.vertex.homogeneous_mult_matrix m } }

/-- `transform_triangle` (`rasterisation.rs`): the pure form; the source
first builds a new triangle with `splat 0` positions and the old
attributes, then overwrites each position with the transformed one. -/
def Triangle.transform_triangle (t : Triangle) (m : Matrix44) : Triangle :=
  let base : Triangle :=
    { v0 := Vertex.new (Vec3.splat 0) t.v0.attributes,
      v1 := Vertex.new (Vec3.splat 0) t.v1.attributes,
      v2 := Vertex.new (Vec3.splat 0) t.v2.attributes }
  { v0 := { base.v0 with vertex := t.v0.vertex.homogeneous_mult_matrix m },
    v1 := { base.v1 with vertex := t.v1.vertex.homogeneous_mult_matrix m },
    v2 := { base.v2 with vertex := t.v2.vertex.homogeneous_mult_matrix m } }

/-- `is_top_left` (`rasterisation.rs`): true when the directed edge
`v0 → v1` is a top edge (horizontal, right-to-left for CCW, left-to-right
for CW) or a left edge (downward for CCW, upward for CW). -/
def is_top_left (v0 v1 : Vec3) (winding : WindingOrder) : Bool :=
  match winding with
  | WindingOrder.CCW => decide ((v0.y = v1.y ∧ v1.x < v0.x) ∨ v1.y < v0.y)
  | WindingOrder.CW => decide ((v0.y = v1.y ∧ v0.x < v1.x) ∨ v0.y < v1.y)

/-- `edge_fn` (`rasterisation.rs`): the signed edge function of directed
edge `v0 → v1` at point `p`, negated for CCW winding. -/
def edge_fn (v0 v1 p : Vec3) (winding : WindingOrder) : ℚ :=
  let result := ((p.x - v0.x) * (v1.y - v0.y)) - ((p.y - v0.y) * (v1.x - v0.x))
  match winding with
  | WindingOrder.CCW => -result
  | WindingOrder.CW => result

namespace Rasterise

/-- The per-edge bias of `rasterise_triangle`: 0 for a top/left edge, −1
otherwise (`rasterisation.rs` lines 175–177). -/
def bias (v0 v1 : Vec3) (winding : WindingOrder) : ℚ :=
  if is_top_left v0 v1 winding then 0 else -1

/-- `delta_w0_x`, `delta_w1_x`, `delta_w2_x` (`rasterisation.rs` lines
182–184): the per-column increments of the three running edge values. -/
def deltaX (t : Triangle) : ℚ × ℚ × ℚ :=
  (t.v0.vertex.y - t.v1.vertex.y,
   t.v1.vertex.y - t.v2.vertex.y,
   t.v2.vertex.y - t.v0.vertex.y)

/-- `delta_w0_y`, `delta_w1_y`, `delta_w2_y` (`rasterisation.rs` lines
186–188): the per-row increments of the three running edge values. -/
def deltaY (t : Triangle) : ℚ × ℚ × ℚ :=
  (t.v1.vertex.x - t.v0.vertex.x,
   t.v2.vertex.x - t.v1.vertex.x,
   t.v0.vertex.x - t.v2.vertex.x)

/-- One per-column update of the running edge values
(`col_w* += delta_w*_x`). -/
def stepX (t : Triangle) (w : ℚ × ℚ × ℚ) : ℚ × ℚ × ℚ :=
  (w.1 + (deltaX t).1, w.2.1 + (deltaX t).2.1, w.2.2 + (deltaX t).2.2)

/-- One per-row update of the running edge values (`w* += delta_w*_y`). -/
def stepY (t : Triangle) (w : ℚ × ℚ × ℚ) : ℚ × ℚ × ℚ :=
  (w.1 + (deltaY t).1, w.2.1 + (deltaY t).2.1, w.2.2 + (deltaY t).2.2)

/-- The start point of the scan (`rasterisation.rs` line 197): the floored
bounding-box minimum offset by `(0.5, 0.5)` to sample the pixel center. -/
def startPoint (t : Triangle) : Vec3 :=
  Vec3.new ((⌊(t.get_bounding_box).x.min⌋ : ℚ) + 1/2)
    ((⌊(t.get_bounding_box).y.min⌋ : ℚ) + 1/2) 0

/-- The three biased edge values at the start point (`col_w0`, `col_w1`,
`col_w2` before the scan, `rasterisation.rs` lines 198–200). -/
def startW (t : Triangle) (winding : WindingOrder) : ℚ × ℚ × ℚ :=
  (edge_fn t.v0.vertex t.v1.vertex (startPoint t) winding
     + bias t.v0.vertex t.v1.vertex winding,
   edge_fn t.v1.vertex t.v2.vertex (startPoint t) winding
     + bias t.v1.vertex t.v2.vertex winding,
   edge_fn t.v2.vertex t.v0.vertex (startPoint t) winding
     + bias t.v2.vertex t.v0.vertex winding)

/-- `double_triangle_area` (`rasterisation.rs` line 201): the sum of the
three biased edge values at the start point. -/
def double_triangle_area (t : Triangle) (winding : WindingOrder) : ℚ :=
  (startW t winding).1 + (startW t winding).2.1 + (startW t winding).2.2

/-- The interpolated pixel colour (`rasterisation.rs` lines 223–230),
computed from the running edge values `w` as they stand *after* the
per-row increment: `l0 = w1/area`, `l1 = w2/area`, `l2 = w0/area`. -/
def colourOf (t : Triangle) (area : ℚ) (w : ℚ × ℚ × ℚ) : Colour8 :=
  Colour8.add
    (Colour8.add (t.v0.attributes.colour.multiply_float (w.2.1 / area))
      (t.v1.attributes.colour.multiply_float (w.2.2 / area)))
    (t.v2.attributes.colour.multiply_float (w.1 / area))

/-- One pixel write emitted by the scan, with the raw `i32` coordinates. -/
structure Write where
  x : ℤ
  y : ℤ
  colour : Colour8
deriving DecidableEq

/-- The inner loop of `rasterise_triangle` (`rasterisation.rs` lines
209–234): walk `n` rows upward from `y`, carrying the running edge values
`w`; the coverage test reads `w` before the per-row increment, the colour
reads it after. -/
def rowWrites (t : Triangle) (area : ℚ) (x : ℤ) :
    ℕ → ℤ → ℚ × ℚ × ℚ → List Write
  | 0, _, _ => []
  | n + 1, y, w =>
      let w' := stepY t w
      if 0 ≤ w.1 ∧ 0 ≤ w.2.1 ∧ 0 ≤ w.2.2 then
        ⟨x, y, colourOf t area w'⟩ :: rowWrites t area x n (y + 1) w'
      else
        rowWrites t area x n (y + 1) w'

/-- The outer loop of `rasterise_triangle` (`rasterisation.rs` lines
203–239): walk `m` columns rightward from `x`, re-running the row scan
from the column's edge values and then applying the per-column increment. -/
def colWrites (t : Triangle) (area : ℚ) (rows : ℕ) (ymin : ℤ) :
    ℕ → ℤ → ℚ × ℚ × ℚ → List Write
  | 0, _, _ => []
  | m + 1, x, colw =>
      rowWrites t area x rows ymin colw ++
        colWrites t area rows ymin m (x + 1) (stepX t colw)

/-- The full list of pixel writes attempted by `rasterise_triangle`
(`rasterisation.rs` lines 170–240), in scan order.  The pixel bounding box
is the floor of the minima and ceiling of the maxima (lines 191–194), and
both loop ranges are half-open. -/
def rasterise_writes (t : Triangle) (winding : WindingOrder) : List Write :=
  let bb := t.get_bounding_box
  let xmin : ℤ := ⌊bb.x.min⌋
  let xmax : ℤ := ⌈bb.x.max⌉
  let ymin : ℤ := ⌊bb.y.min⌋
  let ymax : ℤ := ⌈bb.y.max⌉
  colWrites t (double_triangle_area t winding) (ymax - ymin).toNat ymin
    (xmax - xmin).toNat xmin (startW t winding)

end Rasterise

/-- `FrameBufError` (`frame_buffer.rs`). -/
inductive FrameBufError where
  | PixelOutsideBuf
  | Other
deriving DecidableEq

/-- `FrameBuffer<T>` (`frame_buffer.rs`): a 2-D pixel surface with declared
width and height; the backing store is modelled as a total map from
coordinates to colours. -/
structure FrameBuffer where
  width_px : ℕ
  height_px : ℕ
  buf : ℕ → ℕ → Colour8

/-- `FrameBuffer::write_buf` (`frame_buffer.rs` lines 19–21), with the
bounds check of the backing `FrameBufferTrait` implementation
(`convert_coordinates` in `main.rs`): the write fails with
`PixelOutsideBuf` exactly when the coordinate is outside
`[0,width)×[0,height)`; mutation is modelled by returning the updated
buffer. -/
def FrameBuffer.write_buf (fb : FrameBuffer) (px_x px_y : ℕ) (colour : Colour8) :
    Except FrameBufError FrameBuffer :=
  if px_x ≥ fb.width_px ∨ px_y ≥ fb.height_px then
    Except.error FrameBufError.PixelOutsideBuf
  else
    Except.ok { fb with
      buf := fun a b => if a = px_x ∧ b = px_y then colour else fb.buf a b }

/-- The Rust `x as usize` cast of an `i32` coordinate on a 64-bit target
(`rasterisation.rs` line 233): wraps modulo `2^64`, so a negative pixel
coordinate becomes a huge index. -/
def usize_of_i32 (x : ℤ) : ℕ :=
  (x % (2 ^ 64)).toNat

/-- `let _ = frame_buffer.write_buf(x as usize, y as usize, ...)`
(`rasterisation.rs` line 233): a failing write leaves the buffer unchanged
and is swallowed. -/
def writeSwallow (fb : FrameBuffer) (w : Rasterise.Write) : FrameBuffer :=
  match fb.write_buf (usize_of_i32 w.x) (usize_of_i32 w.y) w.colour with
  | Except.ok fb' => fb'
  | Except.error _ => fb

/-- `rasterise_triangle` (`rasterisation.rs` lines 170–240) acting on the
frame buffer: the scan's arithmetic never reads the buffer, so the
interleaved loop equals folding the emitted write list over the buffer. -/
def rasterise_triangle (t : Triangle) (fb : FrameBuffer) (winding : WindingOrder) :
    FrameBuffer :=
  (Rasterise.rasterise_writes t winding).foldl writeSwallow fb

/-- `FitResolutionGate` (`camera.rs`). -/
inductive FitResolutionGate where
  | Fill
  | Overscan

/-- `ProjectionError` (`camera.rs`); the `PointCLipped` spelling is the
source's. -/
inductive ProjectionError where
  | PointCLipped
  | PointOutsideCanvas
deriving DecidableEq

/-- `Camera` (`camera.rs`).  The two cached angle-of-view fields are
omitted: they are computed with `f32::atan`, are never read by any other
operation, and have no exact rational counterpart. -/
structure Camera where
  transformation_matrix : Matrix44
  image_size : Vec2 ℤ
  focal_length : ℚ
  camera_aperture : Vec2 ℚ
  z_near : ℚ
  z_far : ℚ
  fit_resolution_gate : FitResolutionGate
  canvas_size : Vec2 ℚ
  screen_window : Vec2 ℚ × Vec2 ℚ
  film_gate_aspect_ratio : ℚ
  resolution_gate_aspect_ratio : ℚ

namespace Camera

/-- `Camera::new` (`camera.rs` lines 49–107): derive the aspect ratios,
the fit-mode scale factors, the canvas size at the near plane and the
screen window. -/
def new (transformation_matrix : Matrix44) (image_size : Vec2 ℤ)
    (focal_length : ℚ) (camera_aperture : Vec2 ℚ) (z_near z_far : ℚ)
    (fit_resolution_gate : FitResolutionGate) : Camera :=
  let film_gate_aspect_ratio := camera_aperture.x / camera_aperture.y
  let resolution_gate_aspect_ratio := (image_size.x : ℚ) / (image_size.y : ℚ)
  let scale : ℚ × ℚ :=
    match fit_resolution_gate with
    | FitResolutionGate.Fill =>
        if film_gate_aspect_ratio > resolution_gate_aspect_ratio then
          (resolution_gate_aspect_ratio / film_gate_aspect_ratio, 1)
        else
          (1, film_gate_aspect_ratio / resolution_gate_aspect_ratio)
    | FitResolutionGate.Overscan =>
        if film_gate_aspect_ratio > resolution_gate_aspect_ratio then
          (1, film_gate_aspect_ratio / resolution_gate_aspect_ratio)
        else
          (resolution_gate_aspect_ratio / film_gate_aspect_ratio, 1)
  let canvas_height := camera_aperture.y / 2 / focal_length * z_near
  let canvas_size : Vec2 ℚ :=
    ⟨canvas_height * film_gate_aspect_ratio * scale.1, canvas_height * scale.2⟩
  let bottom_left : Vec2 ℚ := ⟨canvas_size.x / (-2), canvas_size.y / (-2)⟩
  let top_right : Vec2 ℚ := ⟨-bottom_left.x, -bottom_left.y⟩
  { transformation_matrix := transformation_matrix,
    image_size := image_size,
    focal_length := focal_length,
    camera_aperture := camera_aperture,
    z_near := z_near,
    z_far := z_far,
    fit_resolution_gate := fit_resolution_gate,
    canvas_size := canvas_size,
    screen_window := (bottom_left, top_right),
    film_gate_aspect_ratio := film_gate_aspect_ratio,
    resolution_gate_aspect_ratio := resolution_gate_aspect_ratio }

/-- `Camera::point_to_screen` (`camera.rs` lines 110–125): world-to-camera
homogeneous transform, near/far rejection, then canvas projection with the
`x / -z` sign asymmetry; the depth is passed through unchanged. -/
def point_to_screen (c : Camera) (world_point : Vec3) :
    Except ProjectionError Vec3 :=
  let camera_point := world_point.homogeneous_mult_matrix c.transformation_matrix
  if camera_point.z < c.z_near ∨ camera_point.z > c.z_far then
    Except.error ProjectionError.PointCLipped
  else
    Except.ok (Vec3.new (camera_point.x / -camera_point.z * c.z_near)
      (camera_point.y / camera_point.z * c.z_near) camera_point.z)

/-- `Camera::screen_to_raster` (`camera.rs` lines 128–146): normalise into
NDC, reject strictly outside `[0,1]`, scale by the image resolution and
floor to the integer pixel coordinate. -/
def screen_to_raster (c : Camera) (screen_point : Vec3) :
    Except ProjectionError (Vec2 ℤ) :=
  let ndc_x := screen_point.x / c.canvas_size.x + 1/2
  let ndc_y := screen_point.y / c.canvas_size.y + 1/2
  if ndc_x > 1 ∨ ndc_x < 0 ∨ ndc_y > 1 ∨ ndc_y < 0 then
    Except.error ProjectionError.PointOutsideCanvas
  else
    Except.ok ⟨⌊ndc_x * (c.image_size.x : ℚ)⌋, ⌊ndc_y * (c.image_size.y : ℚ)⌋⟩

/-- `Camera::point_to_raster` (`camera.rs` lines 149–152). -/
def point_to_raster (c : Camera) (world_point : Vec3) :
    Except ProjectionError (Vec2 ℤ) :=
  match c.point_to_screen world_point with
  | Except.error e => Except.error e
  | Except.ok screen_point => c.screen_to_raster screen_point

end Camera

/-- Modelled from the spec (§4.2 step 7), for comparison with the code's
interpolation: perspective-correct interpolation of the vertex colours at
barycentric weights `l0, l1, l2` using the vertex depths — interpolate
`attr_i / z_i` and `1 / z_i`, then divide the former by the latter.
Channels are computed in exact rationals, then clamped to bytes exactly as
the code's colour path does. -/
def perspective_correct_colour (t : Triangle) (l0 l1 l2 : ℚ) : Colour8 :=
  let z0 := t.v0.vertex.z
  let z1 := t.v1.vertex.z
  let z2 := t.v2.vertex.z
  let invZ := l0 / z0 + l1 / z1 + l2 / z2
  let ch (f : Colour8 → ℕ) : ℕ :=
    byteClamp ((l0 * (f t.v0.attributes.colour : ℚ) / z0 +
                l1 * (f t.v1.attributes.colour : ℚ) / z1 +
                l2 * (f t.v2.attributes.colour : ℚ) / z2) / invZ)
  ⟨ch Colour8.red, ch Colour8.green, ch Colour8.blue, ch Colour8.alpha⟩

/-- `rasterise_triangle` attempts a write at pixel `(x, y)` (with some
colour).  This is the coverage notion the rasterisation claims speak
about. -/
def writes_pixel (t : Triangle) (winding : WindingOrder) (x y : ℤ) : Prop :=
  ∃ w ∈ Rasterise.rasterise_writes t winding, w.x = x ∧ w.y = y

instance (t : Triangle) (winding : WindingOrder) (x y : ℤ) :
    Decidable (writes_pixel t winding x y) :=
  List.decidableBEx _ _

/-- Shorthand for building a concrete vertex. -/
def mkVert (x y z : ℚ) (c : Colour8) : Vertex :=
  ⟨⟨x, y, z⟩, ⟨c⟩⟩

/-- The all-zero colour. -/
def blankC : Colour8 := ⟨0, 0, 0, 0⟩

/-- A clockwise-wound right triangle with legs on the axes, used to probe
the scan under `WindingOrder.CW`. -/
def exTriCW : Triangle :=
  ⟨mkVert 0 0 0 blankC, mkVert 0 4 0 blankC, mkVert 4 0 0 blankC⟩

/-- Left-hand triangle of a CCW pair sharing the vertical edge
`(3/2,0) – (3/2,3)`; the pixel centre `(3/2, 3/2)` lies on that edge. -/
def exTriA : Triangle :=
  ⟨mkVert (3/2) 0 0 blankC, mkVert (3/2) 3 0 blankC, mkVert 0 (3/2) 0 blankC⟩

/-- Right-hand triangle of the CCW pair: same shared edge reversed, third
vertex close to the edge so the `-1` bias band swallows the pixel. -/
def exTriB : Triangle :=
  ⟨mkVert (3/2) 3 0 blankC, mkVert (3/2) 0 0 blankC, mkVert (7/4) (3/2) 0 blankC⟩

/-- Right-hand triangle of a CW pair sharing the same vertical edge. -/
def exTriC : Triangle :=
  ⟨mkVert (3/2) 0 0 blankC, mkVert (3/2) 3 0 blankC, mkVert 3 (3/2) 0 blankC⟩

/-- Left-hand triangle of the CW pair (shared edge reversed). -/
def exTriD : Triangle :=
  ⟨mkVert (3/2) 3 0 blankC, mkVert (3/2) 0 0 blankC, mkVert 0 (3/2) 0 blankC⟩

/-- A CCW triangle whose vertices carry three distinct depths (1, 2, 4)
and a red colour only at the first vertex, used to compare the written
colour against perspective-correct interpolation. -/
def exTriP : Triangle :=
  ⟨mkVert 0 0 1 ⟨140, 0, 0, 0⟩, mkVert 4 0 2 blankC, mkVert 0 4 4 blankC⟩

/-- A CCW triangle extending into negative pixel coordinates, outside any
frame buffer's valid range. -/
def exTriN : Triangle :=
  ⟨mkVert (-3) (-1) 0 blankC, mkVert 1 (-1) 0 blankC, mkVert 1 3 0 blankC⟩

/-- A degenerate (collinear) triangle. -/
def exTriL : Triangle :=
  ⟨mkVert 0 0 0 blankC, mkVert 1 1 0 blankC, mkVert 2 2 0 blankC⟩

/-- A small 4×4 frame buffer with a blank backing store. -/
def exBuf : FrameBuffer :=
  ⟨4, 4, fun _ _ => blankC⟩

/-- An 8×8 frame buffer matching `exCam`'s image resolution. -/
def exBuf8 : FrameBuffer :=
  ⟨8, 8, fun _ _ => blankC⟩

/-- A concrete camera: an all-ones world-to-camera matrix, 8×8 image,
square 2×2 aperture, focal length 1, near/far 1 and 100, `Fill` mode.
Its canvas size works out to 1×1. -/
def exCam : Camera :=
  Camera.new ⟨fun _ _ => 1⟩ ⟨8, 8⟩ 1 ⟨2, 2⟩ 1 100 FitResolutionGate.Fill

namespace Rasterise

lemma stepY_iterate (t : Triangle) (w : ℚ × ℚ × ℚ) (j : ℕ) :
    (stepY t)^[j] w =
      (w.1 + j * (deltaY t).1, w.2.1 + j * (deltaY t).2.1,
        w.2.2 + j * (deltaY t).2.2) := by
  induction j with
  | zero => simp
  | succ j ih =>
      rw [Function.iterate_succ_apply', ih]
      simp only [stepY, Prod.mk.injEq]
      push_cast
      refine ⟨by ring, by ring, by ring⟩

lemma stepX_iterate (t : Triangle) (w : ℚ × ℚ × ℚ) (i : ℕ) :
    (stepX t)^[i] w =
      (w.1 + i * (deltaX t).1, w.2.1 + i * (deltaX t).2.1,
        w.2.2 + i * (deltaX t).2.2) := by
  induction i with
  | zero => simp
  | succ i ih =>
      rw [Function.iterate_succ_apply', ih]
      simp only [stepX, Prod.mk.injEq]
      push_cast
      refine ⟨by ring, by ring, by ring⟩

lemma write_shift (t : Triangle) (area : ℚ) (x y : ℤ) (j : ℕ) (w : ℚ × ℚ × ℚ) :
    (⟨x, y + 1 + (j : ℤ), colourOf t area ((stepY t)^[j + 1] (stepY t w))⟩ : Write) =
      ⟨x, y + ((j : ℕ) + 1 : ℕ), colourOf t area ((stepY t)^[j + 1 + 1] w)⟩ := by
  have hy : y + 1 + (j : ℤ) = y + (((j : ℕ) + 1 : ℕ) : ℤ) := by push_cast; ring
  rw [hy, Function.iterate_succ_apply (stepY t) (j + 1) w]

/-- Membership in one row scan: the writes are exactly the pixels at row
offsets `j` below the fuel bound whose pre-increment edge values are all
nonnegative, and the recorded colour is computed from the post-increment
values. -/
lemma mem_rowWrites (t : Triangle) (area : ℚ) (x : ℤ) :
    ∀ (n : ℕ) (y : ℤ) (w : ℚ × ℚ × ℚ) (wr : Write),
      wr ∈ rowWrites t area x n y w ↔
        ∃ j : ℕ, j < n ∧
          (0 ≤ ((stepY t)^[j] w).1 ∧ 0 ≤ ((stepY t)^[j] w).2.1 ∧
            0 ≤ ((stepY t)^[j] w).2.2) ∧
          wr = ⟨x, y + j, colourOf t area ((stepY t)^[j + 1] w)⟩ := by
  intro n
  induction n with
  | zero => intro y w wr; simp [rowWrites]
  | succ n ih =>
      intro y w wr
      rw [rowWrites]
      by_cases hov : 0 ≤ w.1 ∧ 0 ≤ w.2.1 ∧ 0 ≤ w.2.2
      · rw [if_pos hov]
        simp only [List.mem_cons, ih]
        constructor
        · rintro (rfl | ⟨j, hj, hcond, rfl⟩)
          · exact ⟨0, Nat.succ_pos n, by simpa using hov, by simp⟩
          · refine ⟨j + 1, by omega, ?_, ?_⟩
            · simpa [Function.iterate_succ_apply] using hcond
            · exact write_shift t area x y j w
        · rintro ⟨j, hj, hcond, rfl⟩
          match j with
          | 0 => exact Or.inl (by simp)
          | j + 1 =>
              refine Or.inr ⟨j, by omega, ?_, ?_⟩
              · simpa [Function.iterate_succ_apply] using hcond
              · exact (write_shift t area x y j w).symm
      · rw [if_neg hov]
        simp only [ih]
        constructor
        · rintro ⟨j, hj, hcond, rfl⟩
          refine ⟨j + 1, by omega, ?_, ?_⟩
          · simpa [Function.iterate_succ_apply] using hcond
          · exact write_shift t area x y j w
        · rintro ⟨j, hj, hcond, rfl⟩
          match j with
          | 0 => exact absurd (by simpa using hcond) hov
          | j + 1 =>
              refine ⟨j, by omega, ?_, ?_⟩
              · simpa [Function.iterate_succ_apply] using hcond
              · exact (write_shift t area x y j w).symm

/-- Membership in the column scan: a write belongs to some column offset
`i` below the fuel bound, with that column's row scan started from the
`i`-times incremented column edge values. -/
lemma mem_colWrites (t : Triangle) (area : ℚ) (rows : ℕ) (ymin : ℤ) :
    ∀ (m : ℕ) (x : ℤ) (cw : ℚ × ℚ × ℚ) (wr : Write),
      wr ∈ colWrites t area rows ymin m x cw ↔
        ∃ i : ℕ, i < m ∧
          wr ∈ rowWrites t area (x + i) rows ymin ((stepX t)^[i] cw) := by
  intro m
  induction m with
  | zero => intro x cw wr; simp [colWrites]
  | succ m ih =>
      intro x cw wr
      rw [colWrites]
      simp only [List.mem_append, ih]
      constructor
      · rintro (h | ⟨i, hi, h⟩)
        · exact ⟨0, Nat.succ_pos m, by simpa using h⟩
        · refine ⟨i + 1, by omega, ?_⟩
          have hx : x + 1 + (i : ℤ) = x + (((i : ℕ) + 1 : ℕ) : ℤ) := by push_cast; ring
          rw [Function.iterate_succ_apply, ← hx]
          exact h
      · rintro ⟨i, hi, h⟩
        match i with
        | 0 => exact Or.inl (by simpa using h)
        | i + 1 =>
            refine Or.inr ⟨i, by omega, ?_⟩
            have hx : x + 1 + (i : ℤ) = x + (((i : ℕ) + 1 : ℕ) : ℤ) := by push_cast; ring
            rw [Function.iterate_succ_apply, ← hx] at h
            exact h

/-- Translating the sample point of the CCW edge function by `(a, b)` adds
exactly the per-column and per-row deltas hard-coded in
`rasterise_triangle` — the incremental scan is pointwise exact for CCW
winding. -/
lemma edge_fn_translate_CCW (v0 v1 p : Vec3) (a b : ℚ) :
    edge_fn v0 v1 ⟨p.x + a, p.y + b, p.z⟩ WindingOrder.CCW =
      edge_fn v0 v1 p WindingOrder.CCW + a * (v0.y - v1.y) + b * (v1.x - v0.x) := by
  simp only [edge_fn]
  ring

/-- The doubled signed area spanned by the triangle's vertices, oriented
so that for either winding order an inside point has all three edge
functions nonnegative exactly when this quantity is positive. -/
def cross2 (v0 v1 v2 : Vec3) : ℚ :=
  (v1.x - v0.x) * (v2.y - v0.y) - (v1.y - v0.y) * (v2.x - v0.x)

/-- The three CCW edge functions at any point sum to the doubled oriented
area — the sum is independent of the sample point. -/
lemma edge_fn_sum_CCW (v0 v1 v2 p : Vec3) :
    edge_fn v0 v1 p WindingOrder.CCW + edge_fn v1 v2 p WindingOrder.CCW +
      edge_fn v2 v0 p WindingOrder.CCW = cross2 v0 v1 v2 := by
  simp only [edge_fn, cross2]
  ring

/-- The three CW edge functions at any point sum to the negated doubled
oriented area. -/
lemma edge_fn_sum_CW (v0 v1 v2 p : Vec3) :
    edge_fn v0 v1 p WindingOrder.CW + edge_fn v1 v2 p WindingOrder.CW +
      edge_fn v2 v0 p WindingOrder.CW = -cross2 v0 v1 v2 := by
  simp only [edge_fn, cross2]
  ring

lemma bb_x_min_le_max (t : Triangle) :
    (t.get_bounding_box).x.min ≤ (t.get_bounding_box).x.max :=
  le_trans (min_le_left _ _) (le_max_left _ _)

lemma bb_y_min_le_max (t : Triangle) :
    (t.get_bounding_box).y.min ≤ (t.get_bounding_box).y.max :=
  le_trans (min_le_left _ _) (le_max_left _ _)

/-- The scan state at column offset `i` and row offset `j`, reached from
the biased start values by the incremental updates, written pointwise:
for CCW winding it is exactly the biased edge function evaluated at the
centre of pixel `(xmin + i, ymin + j)`. -/
lemma scanW_CCW (t : Triangle) (i j : ℕ) :
    (stepY t)^[j] ((stepX t)^[i] (startW t WindingOrder.CCW)) =
      (edge_fn t.v0.vertex t.v1.vertex
          ⟨(startPoint t).x + i, (startPoint t).y + j, (startPoint t).z⟩
          WindingOrder.CCW + bias t.v0.vertex t.v1.vertex WindingOrder.CCW,
        edge_fn t.v1.vertex t.v2.vertex
          ⟨(startPoint t).x + i, (startPoint t).y + j, (startPoint t).z⟩
          WindingOrder.CCW + bias t.v1.vertex t.v2.vertex WindingOrder.CCW,
        edge_fn t.v2.vertex t.v0.vertex
          ⟨(startPoint t).x + i, (startPoint t).y + j, (startPoint t).z⟩
          WindingOrder.CCW + bias t.v2.vertex t.v0.vertex WindingOrder.CCW) := by
  rw [stepX_iterate, stepY_iterate]
  simp only [startW, deltaX, deltaY, Prod.mk.injEq]
  refine ⟨?_, ?_, ?_⟩ <;>
    · rw [edge_fn_translate_CCW]
      ring

/-- Raw membership in the full scan: a write exists exactly at the column
and row offsets within the pixel bounding box whose pre-increment scan
state is componentwise nonnegative. -/
lemma mem_rasterise_writes (t : Triangle) (winding : WindingOrder) (wr : Write) :
    wr ∈ rasterise_writes t winding ↔
      ∃ i : ℕ,
        i < (⌈(t.get_bounding_box).x.max⌉ - ⌊(t.get_bounding_box).x.min⌋).toNat ∧
      ∃ j : ℕ,
        j < (⌈(t.get_bounding_box).y.max⌉ - ⌊(t.get_bounding_box).y.min⌋).toNat ∧
        (0 ≤ ((stepY t)^[j] ((stepX t)^[i] (startW t winding))).1 ∧
          0 ≤ ((stepY t)^[j] ((stepX t)^[i] (startW t winding))).2.1 ∧
          0 ≤ ((stepY t)^[j] ((stepX t)^[i] (startW t winding))).2.2) ∧
        wr = ⟨⌊(t.get_bounding_box).x.min⌋ + i, ⌊(t.get_bounding_box).y.min⌋ + j,
          colourOf t (double_triangle_area t winding)
            ((stepY t)^[j + 1] ((stepX t)^[i] (startW t winding)))⟩ := by
  unfold rasterise_writes
  rw [mem_colWrites]
  constructor
  · rintro ⟨i, hi, h⟩
    rw [mem_rowWrites] at h
    obtain ⟨j, hj, hcond, rfl⟩ := h
    exact ⟨i, hi, j, hj, hcond, rfl⟩
  · rintro ⟨i, hi, j, hj, hcond, rfl⟩
    refine ⟨i, hi, ?_⟩
    rw [mem_rowWrites]
    exact ⟨j, hj, hcond, rfl⟩

/-- Coverage characterisation for CCW winding: the scan writes pixel
`(x, y)` exactly when the pixel centre lies in the floor/ceil pixel
bounding box and all three biased edge functions are nonnegative there. -/
lemma writes_pixel_iff_CCW (t : Triangle) (x y : ℤ) :
    writes_pixel t WindingOrder.CCW x y ↔
      ⌊(t.get_bounding_box).x.min⌋ ≤ x ∧ x < ⌈(t.get_bounding_box).x.max⌉ ∧
      ⌊(t.get_bounding_box).y.min⌋ ≤ y ∧ y < ⌈(t.get_bounding_box).y.max⌉ ∧
      0 ≤ edge_fn t.v0.vertex t.v1.vertex ⟨(x : ℚ) + 1/2, (y : ℚ) + 1/2, 0⟩
          WindingOrder.CCW + bias t.v0.vertex t.v1.vertex WindingOrder.CCW ∧
      0 ≤ edge_fn t.v1.vertex t.v2.vertex ⟨(x : ℚ) + 1/2, (y : ℚ) + 1/2, 0⟩
          WindingOrder.CCW + bias t.v1.vertex t.v2.vertex WindingOrder.CCW ∧
      0 ≤ edge_fn t.v2.vertex t.v0.vertex ⟨(x : ℚ) + 1/2, (y : ℚ) + 1/2, 0⟩
          WindingOrder.CCW + bias t.v2.vertex t.v0.vertex WindingOrder.CCW := by
  have key : ∀ i j : ℕ,
      ⌊(t.get_bounding_box).x.min⌋ + (i : ℤ) = x →
      ⌊(t.get_bounding_box).y.min⌋ + (j : ℤ) = y →
      (⟨(startPoint t).x + i, (startPoint t).y + j, (startPoint t).z⟩ : Vec3) =
        ⟨(x : ℚ) + 1/2, (y : ℚ) + 1/2, 0⟩ := by
    intro i j hx hy
    simp only [startPoint, Vec3.new, Vec3.mk.injEq]
    refine ⟨by rw [← hx]; push_cast; ring, by rw [← hy]; push_cast; ring, trivial⟩
  constructor
  · rintro ⟨wr, hmem, hwx, hwy⟩
    rw [mem_rasterise_writes] at hmem
    obtain ⟨i, hi, j, hj, hcond, rfl⟩ := hmem
    simp only at hwx hwy
    rw [scanW_CCW, key i j hwx hwy] at hcond
    refine ⟨by omega, by omega, by omega, by omega, hcond.1, hcond.2.1, hcond.2.2⟩
  · rintro ⟨h1, h2, h3, h4, h5, h6, h7⟩
    refine ⟨⟨x, y, colourOf t (double_triangle_area t WindingOrder.CCW)
      ((stepY t)^[(y - ⌊(t.get_bounding_box).y.min⌋).toNat + 1]
        ((stepX t)^[(x - ⌊(t.get_bounding_box).x.min⌋).toNat]
          (startW t WindingOrder.CCW)))⟩, ?_, rfl, rfl⟩
    rw [mem_rasterise_writes]
    refine ⟨(x - ⌊(t.get_bounding_box).x.min⌋).toNat, by omega,
      (y - ⌊(t.get_bounding_box).y.min⌋).toNat, by omega, ?_, ?_⟩
    · rw [scanW_CCW, key _ _ (by omega) (by omega)]
      exact ⟨h5, h6, h7⟩
    · simp only [Write.mk.injEq]
      refine ⟨by omega, by omega, trivial⟩

/-- No triangle has all three of its directed edges classified top/left:
the classification orders the vertices cyclically, which is impossible. -/
lemma not_all_top_left (v0 v1 v2 : Vec3) (winding : WindingOrder) :
    ¬(is_top_left v0 v1 winding = true ∧ is_top_left v1 v2 winding = true ∧
      is_top_left v2 v0 winding = true) := by
  cases winding <;>
    · simp only [is_top_left, decide_eq_true_eq]
      rintro ⟨h1, h2, h3⟩
      rcases h1 with ⟨e1, l1⟩ | l1 <;> rcases h2 with ⟨e2, l2⟩ | l2 <;>
        rcases h3 with ⟨e3, l3⟩ | l3 <;> linarith

/-- For a geometrically non-degenerate edge, exactly one of its two
directions is a top/left edge (CCW winding): this is the tie-break the
fill rule relies on. -/
lemma is_top_left_antisymm (a b : Vec3) (h : a.x ≠ b.x ∨ a.y ≠ b.y) :
    (is_top_left a b WindingOrder.CCW = true ↔
      ¬(is_top_left b a WindingOrder.CCW = true)) := by
  simp only [is_top_left, decide_eq_true_eq]
  constructor
  · rintro (⟨he, hx⟩ | hy) hcon
    · rcases hcon with ⟨he2, hx2⟩ | hy2 <;> linarith
    · rcases hcon with ⟨he2, hx2⟩ | hy2 <;> linarith
  · intro hcon
    push_neg at hcon
    obtain ⟨h1, h2⟩ := hcon
    rcases eq_or_lt_of_le h2 with heq | hlt
    · have hxne : a.x ≠ b.x := by
        rcases h with hx | hy
        · exact hx
        · exact absurd heq.symm hy
      have := h1 heq
      exact Or.inl ⟨heq.symm, lt_of_le_of_ne this (Ne.symm hxne)⟩
    · exact Or.inr hlt

lemma stepY_sum (t : Triangle) (w : ℚ × ℚ × ℚ) :
    (stepY t w).1 + (stepY t w).2.1 + (stepY t w).2.2 =
      w.1 + w.2.1 + w.2.2 := by
  simp only [stepY, deltaY]
  ring

lemma stepX_sum (t : Triangle) (w : ℚ × ℚ × ℚ) :
    (stepX t w).1 + (stepX t w).2.1 + (stepX t w).2.2 =
      w.1 + w.2.1 + w.2.2 := by
  simp only [stepX, deltaX]
  ring

/-- A row scan whose running edge values sum to a negative constant emits
nothing: the sum is preserved by the per-row update, and coverage would
force it nonnegative. -/
lemma rowWrites_eq_nil (t : Triangle) (area : ℚ) (x : ℤ) :
    ∀ (n : ℕ) (y : ℤ) (w : ℚ × ℚ × ℚ),
      w.1 + w.2.1 + w.2.2 < 0 → rowWrites t area x n y w = [] := by
  intro n
  induction n with
  | zero => intro y w _; rfl
  | succ n ih =>
      intro y w hw
      rw [rowWrites, if_neg (by rintro ⟨a, b, c⟩; linarith)]
      exact ih (y + 1) (stepY t w) (by rw [stepY_sum]; exact hw)

/-- A column scan whose running edge values sum to a negative constant
emits nothing. -/
lemma colWrites_eq_nil (t : Triangle) (area : ℚ) (rows : ℕ) (ymin : ℤ) :
    ∀ (m : ℕ) (x : ℤ) (cw : ℚ × ℚ × ℚ),
      cw.1 + cw.2.1 + cw.2.2 < 0 → colWrites t area rows ymin m x cw = [] := by
  intro m
  induction m with
  | zero => intro x cw _; rfl
  | succ m ih =>
      intro x cw hw
      rw [colWrites, rowWrites_eq_nil t area x rows ymin cw hw,
        ih (x + 1) (stepX t cw) (by rw [stepX_sum]; exact hw)]
      rfl

/-- The unnormalised barycentric identity: the edge functions opposite
each vertex reconstruct the sample point's x coordinate. -/
lemma bary_point_x (v0 v1 v2 p : Vec3) :
    edge_fn v1 v2 p WindingOrder.CCW * v0.x +
        edge_fn v2 v0 p WindingOrder.CCW * v1.x +
        edge_fn v0 v1 p WindingOrder.CCW * v2.x =
      (edge_fn v0 v1 p WindingOrder.CCW + edge_fn v1 v2 p WindingOrder.CCW +
        edge_fn v2 v0 p WindingOrder.CCW) * p.x := by
  simp only [edge_fn]
  ring

/-- The unnormalised barycentric identity for the y coordinate. -/
lemma bary_point_y (v0 v1 v2 p : Vec3) :
    edge_fn v1 v2 p WindingOrder.CCW * v0.y +
        edge_fn v2 v0 p WindingOrder.CCW * v1.y +
        edge_fn v0 v1 p WindingOrder.CCW * v2.y =
      (edge_fn v0 v1 p WindingOrder.CCW + edge_fn v1 v2 p WindingOrder.CCW +
        edge_fn v2 v0 p WindingOrder.CCW) * p.y := by
  simp only [edge_fn]
  ring

/-- A point with all three CCW edge functions nonnegative in a positively
oriented triangle lies inside the triangle's bounding box. -/
lemma covered_in_bb (t : Triangle) (p : Vec3)
    (h0 : 0 ≤ edge_fn t.v0.vertex t.v1.vertex p WindingOrder.CCW)
    (h1 : 0 ≤ edge_fn t.v1.vertex t.v2.vertex p WindingOrder.CCW)
    (h2 : 0 ≤ edge_fn t.v2.vertex t.v0.vertex p WindingOrder.CCW)
    (harea : 0 < cross2 t.v0.vertex t.v1.vertex t.v2.vertex) :
    (t.get_bounding_box).x.min ≤ p.x ∧ p.x ≤ (t.get_bounding_box).x.max ∧
      (t.get_bounding_box).y.min ≤ p.y ∧ p.y ≤ (t.get_bounding_box).y.max := by
  have hsum := edge_fn_sum_CCW t.v0.vertex t.v1.vertex t.v2.vertex p
  have hix := bary_point_x t.v0.vertex t.v1.vertex t.v2.vertex p
  have hiy := bary_point_y t.v0.vertex t.v1.vertex t.v2.vertex p
  have bxm : (t.get_bounding_box).x.min ≤ t.v0.vertex.x ∧
      (t.get_bounding_box).x.min ≤ t.v1.vertex.x ∧
      (t.get_bounding_box).x.min ≤ t.v2.vertex.x :=
    ⟨min_le_left _ _, le_trans (min_le_right _ _) (min_le_left _ _),
      le_trans (min_le_right _ _) (min_le_right _ _)⟩
  have bxM : t.v0.vertex.x ≤ (t.get_bounding_box).x.max ∧
      t.v1.vertex.x ≤ (t.get_bounding_box).x.max ∧
      t.v2.vertex.x ≤ (t.get_bounding_box).x.max :=
    ⟨le_max_left _ _, le_trans (le_max_left _ _) (le_max_right _ _),
      le_trans (le_max_right _ _) (le_max_right _ _)⟩
  have bym : (t.get_bounding_box).y.min ≤ t.v0.vertex.y ∧
      (t.get_bounding_box).y.min ≤ t.v1.vertex.y ∧
      (t.get_bounding_box).y.min ≤ t.v2.vertex.y :=
    ⟨min_le_left _ _, le_trans (min_le_right _ _) (min_le_left _ _),
      le_trans (min_le_right _ _) (min_le_right _ _)⟩
  have byM : t.v0.vertex.y ≤ (t.get_bounding_box).y.max ∧
      t.v1.vertex.y ≤ (t.get_bounding_box).y.max ∧
      t.v2.vertex.y ≤ (t.get_bounding_box).y.max :=
    ⟨le_max_left _ _, le_trans (le_max_left _ _) (le_max_right _ _),
      le_trans (le_max_right _ _) (le_max_right _ _)⟩
  refine ⟨?_, ?_, ?_, ?_⟩
  · nlinarith [mul_nonneg h1 (sub_nonneg.2 bxm.1), mul_nonneg h2 (sub_nonneg.2 bxm.2.1),
      mul_nonneg h0 (sub_nonneg.2 bxm.2.2)]
  · nlinarith [mul_nonneg h1 (sub_nonneg.2 bxM.1), mul_nonneg h2 (sub_nonneg.2 bxM.2.1),
      mul_nonneg h0 (sub_nonneg.2 bxM.2.2)]
  · nlinarith [mul_nonneg h1 (sub_nonneg.2 bym.1), mul_nonneg h2 (sub_nonneg.2 bym.2.1),
      mul_nonneg h0 (sub_nonneg.2 bym.2.2)]
  · nlinarith [mul_nonneg h1 (sub_nonneg.2 byM.1), mul_nonneg h2 (sub_nonneg.2 byM.2.1),
      mul_nonneg h0 (sub_nonneg.2 byM.2.2)]

lemma bias_nonpos (v0 v1 : Vec3) (winding : WindingOrder) :
    bias v0 v1 winding ≤ 0 := by
  unfold bias
  split_ifs <;> norm_num

lemma bias_nonneg_iff (v0 v1 : Vec3) (winding : WindingOrder) :
    0 ≤ bias v0 v1 winding ↔ is_top_left v0 v1 winding = true := by
  unfold bias
  split_ifs with h <;> simp [h]

/-- Reversing a directed edge negates its edge function, for either
winding order. -/
lemma edge_fn_swap (v0 v1 p : Vec3) (winding : WindingOrder) :
    edge_fn v1 v0 p winding = -edge_fn v0 v1 p winding := by
  cases winding <;>
    · simp only [edge_fn]
      ring

lemma int_le_of_le_center (k x : ℤ) (m : ℚ) (hk : (k : ℚ) ≤ m)
    (h : m ≤ (x : ℚ) + 1/2) : k ≤ x := by
  by_contra hc
  push_neg at hc
  have : ((x + 1 : ℤ) : ℚ) ≤ (k : ℚ) := by exact_mod_cast hc
  push_cast at this
  linarith

lemma lt_ceil_of_center_le (x : ℤ) (M : ℚ) (h : (x : ℚ) + 1/2 ≤ M) :
    x < ⌈M⌉ :=
  Int.lt_ceil.2 (by linarith)

end Rasterise

open Rasterise

namespace Rasterise

/-- Translating the sample point of the CW edge function by `(a, b)` moves
it *against* the hard-coded deltas: the increments applied by the scan
have the CCW sign for both windings. -/
lemma edge_fn_translate_CW (v0 v1 p : Vec3) (a b : ℚ) :
    edge_fn v0 v1 ⟨p.x + a, p.y + b, p.z⟩ WindingOrder.CW =
      edge_fn v0 v1 p WindingOrder.CW - a * (v0.y - v1.y) - b * (v1.x - v0.x) := by
  simp only [edge_fn]
  ring

/-- The scan state under CW winding: the running values are the start
values moved by the *CCW* deltas, i.e. the point-reflection
`2·E(start) − E(centre)` of the true CW edge values, plus the bias. -/
lemma scanW_CW (t : Triangle) (i j : ℕ) :
    (stepY t)^[j] ((stepX t)^[i] (startW t WindingOrder.CW)) =
      (2 * edge_fn t.v0.vertex t.v1.vertex (startPoint t) WindingOrder.CW -
          edge_fn t.v0.vertex t.v1.vertex
            ⟨(startPoint t).x + i, (startPoint t).y + j, (startPoint t).z⟩
            WindingOrder.CW + bias t.v0.vertex t.v1.vertex WindingOrder.CW,
        2 * edge_fn t.v1.vertex t.v2.vertex (startPoint t) WindingOrder.CW -
          edge_fn t.v1.vertex t.v2.vertex
            ⟨(startPoint t).x + i, (startPoint t).y + j, (startPoint t).z⟩
            WindingOrder.CW + bias t.v1.vertex t.v2.vertex WindingOrder.CW,
        2 * edge_fn t.v2.vertex t.v0.vertex (startPoint t) WindingOrder.CW -
          edge_fn t.v2.vertex t.v0.vertex
            ⟨(startPoint t).x + i, (startPoint t).y + j, (startPoint t).z⟩
            WindingOrder.CW + bias t.v2.vertex t.v0.vertex WindingOrder.CW) := by
  rw [stepX_iterate, stepY_iterate]
  simp only [startW, deltaX, deltaY, Prod.mk.injEq]
  refine ⟨?_, ?_, ?_⟩ <;>
    · rw [edge_fn_translate_CW]
      ring

/-- Coverage characterisation for CW winding: because the deltas carry the
CCW sign, a pixel is written exactly when the *reflected* values
`2·E(start) − E(centre) + bias` are all nonnegative — not the biased edge
functions at the pixel centre. -/
lemma writes_pixel_iff_CW (t : Triangle) (x y : ℤ) :
    writes_pixel t WindingOrder.CW x y ↔
      ⌊(t.get_bounding_box).x.min⌋ ≤ x ∧ x < ⌈(t.get_bounding_box).x.max⌉ ∧
      ⌊(t.get_bounding_box).y.min⌋ ≤ y ∧ y < ⌈(t.get_bounding_box).y.max⌉ ∧
      0 ≤ 2 * edge_fn t.v0.vertex t.v1.vertex (startPoint t) WindingOrder.CW -
          edge_fn t.v0.vertex t.v1.vertex ⟨(x : ℚ) + 1/2, (y : ℚ) + 1/2, 0⟩
            WindingOrder.CW + bias t.v0.vertex t.v1.vertex WindingOrder.CW ∧
      0 ≤ 2 * edge_fn t.v1.vertex t.v2.vertex (startPoint t) WindingOrder.CW -
          edge_fn t.v1.vertex t.v2.vertex ⟨(x : ℚ) + 1/2, (y : ℚ) + 1/2, 0⟩
            WindingOrder.CW + bias t.v1.vertex t.v2.vertex WindingOrder.CW ∧
      0 ≤ 2 * edge_fn t.v2.vertex t.v0.vertex (startPoint t) WindingOrder.CW -
          edge_fn t.v2.vertex t.v0.vertex ⟨(x : ℚ) + 1/2, (y : ℚ) + 1/2, 0⟩
            WindingOrder.CW + bias t.v2.vertex t.v0.vertex WindingOrder.CW := by
  have key : ∀ i j : ℕ,
      ⌊(t.get_bounding_box).x.min⌋ + (i : ℤ) = x →
      ⌊(t.get_bounding_box).y.min⌋ + (j : ℤ) = y →
      (⟨(startPoint t).x + i, (startPoint t).y + j, (startPoint t).z⟩ : Vec3) =
        ⟨(x : ℚ) + 1/2, (y : ℚ) + 1/2, 0⟩ := by
    intro i j hx hy
    simp only [startPoint, Vec3.new, Vec3.mk.injEq]
    refine ⟨by rw [← hx]; push_cast; ring, by rw [← hy]; push_cast; ring, trivial⟩
  constructor
  · rintro ⟨wr, hmem, hwx, hwy⟩
    rw [mem_rasterise_writes] at hmem
    obtain ⟨i, hi, j, hj, hcond, rfl⟩ := hmem
    simp only at hwx hwy
    rw [scanW_CW, key i j hwx hwy] at hcond
    refine ⟨by omega, by omega, by omega, by omega, hcond.1, hcond.2.1, hcond.2.2⟩
  · rintro ⟨h1, h2, h3, h4, h5, h6, h7⟩
    refine ⟨⟨x, y, colourOf t (double_triangle_area t WindingOrder.CW)
      ((stepY t)^[(y - ⌊(t.get_bounding_box).y.min⌋).toNat + 1]
        ((stepX t)^[(x - ⌊(t.get_bounding_box).x.min⌋).toNat]
          (startW t WindingOrder.CW)))⟩, ?_, rfl, rfl⟩
    rw [mem_rasterise_writes]
    refine ⟨(x - ⌊(t.get_bounding_box).x.min⌋).toNat, by omega,
      (y - ⌊(t.get_bounding_box).y.min⌋).toNat, by omega, ?_, ?_⟩
    · rw [scanW_CW, key _ _ (by omega) (by omega)]
      exact ⟨h5, h6, h7⟩
    · simp only [Write.mk.injEq]
      refine ⟨by omega, by omega, trivial⟩

end Rasterise

/-- C1 (amended): for CCW winding, `rasterise_triangle` writes a colour to
pixel `(x, y)` if and only if the pixel's centre `(x+0.5, y+0.5)` lies in
the triangle's floor/ceil pixel bounding box and all three biased edge
functions are nonnegative there, the bias being 0 for a top/left edge and
−1 otherwise.  (The original claim asserted this for every winding order;
it fails for CW, whose incremental deltas carry the CCW sign.) -/
theorem C1_coverage_characterisation (t : Triangle) (x y : ℤ) :
    writes_pixel t WindingOrder.CCW x y ↔
      ⌊(t.get_bounding_box).x.min⌋ ≤ x ∧ x < ⌈(t.get_bounding_box).x.max⌉ ∧
      ⌊(t.get_bounding_box).y.min⌋ ≤ y ∧ y < ⌈(t.get_bounding_box).y.max⌉ ∧
      0 ≤ edge_fn t.v0.vertex t.v1.vertex ⟨(x : ℚ) + 1/2, (y : ℚ) + 1/2, 0⟩
          WindingOrder.CCW + bias t.v0.vertex t.v1.vertex WindingOrder.CCW ∧
      0 ≤ edge_fn t.v1.vertex t.v2.vertex ⟨(x : ℚ) + 1/2, (y : ℚ) + 1/2, 0⟩
          WindingOrder.CCW + bias t.v1.vertex t.v2.vertex WindingOrder.CCW ∧
      0 ≤ edge_fn t.v2.vertex t.v0.vertex ⟨(x : ℚ) + 1/2, (y : ℚ) + 1/2, 0⟩
          WindingOrder.CCW + bias t.v2.vertex t.v0.vertex WindingOrder.CCW :=
  writes_pixel_iff_CCW t x y

/-- C1 counterexample for CW winding: pixel `(1, 0)` of `exTriCW` lies in
the pixel bounding box and all three biased edge functions are
nonnegative at its centre `(3/2, 1/2)`, yet the scan never writes it —
the incremental deltas are wrong for CW. -/
theorem C1_cw_fails :
    (⌊(exTriCW.get_bounding_box).x.min⌋ ≤ (1 : ℤ) ∧
      (1 : ℤ) < ⌈(exTriCW.get_bounding_box).x.max⌉ ∧
      ⌊(exTriCW.get_bounding_box).y.min⌋ ≤ (0 : ℤ) ∧
      (0 : ℤ) < ⌈(exTriCW.get_bounding_box).y.max⌉) ∧
    (0 ≤ edge_fn exTriCW.v0.vertex exTriCW.v1.vertex ⟨3/2, 1/2, 0⟩
        WindingOrder.CW + bias exTriCW.v0.vertex exTriCW.v1.vertex WindingOrder.CW ∧
      0 ≤ edge_fn exTriCW.v1.vertex exTriCW.v2.vertex ⟨3/2, 1/2, 0⟩
        WindingOrder.CW + bias exTriCW.v1.vertex exTriCW.v2.vertex WindingOrder.CW ∧
      0 ≤ edge_fn exTriCW.v2.vertex exTriCW.v0.vertex ⟨3/2, 1/2, 0⟩
        WindingOrder.CW + bias exTriCW.v2.vertex exTriCW.v0.vertex WindingOrder.CW) ∧
    ¬ writes_pixel exTriCW WindingOrder.CW 1 0 := by
  refine ⟨by decide, ?_, ?_⟩
  · norm_num [edge_fn, bias, is_top_left, exTriCW, mkVert]
  · rw [writes_pixel_iff_CW]
    intro h
    have h5 := h.2.2.2.2.1
    norm_num [edge_fn, bias, is_top_left, startPoint, Triangle.get_bounding_box,
      Range.find_min_max3, exTriCW, mkVert, Vec3.new] at h5

/-- C3: the per-column and per-row delta triples each sum to zero, so the
sum of the three incrementally updated biased edge values at any scan
offset equals the `double_triangle_area` computed at the start point, and
whenever that area is nonzero the three barycentric weights
`w1/area, w2/area, w0/area` taken from the post-increment values sum
to 1. -/
theorem C3_area_invariant (t : Triangle) (winding : WindingOrder) (i j : ℕ) :
    ((deltaX t).1 + (deltaX t).2.1 + (deltaX t).2.2 = 0) ∧
    ((deltaY t).1 + (deltaY t).2.1 + (deltaY t).2.2 = 0) ∧
    ((stepY t)^[j] ((stepX t)^[i] (startW t winding))).1 +
        ((stepY t)^[j] ((stepX t)^[i] (startW t winding))).2.1 +
        ((stepY t)^[j] ((stepX t)^[i] (startW t winding))).2.2 =
      double_triangle_area t winding ∧
    (double_triangle_area t winding ≠ 0 →
      (stepY t ((stepY t)^[j] ((stepX t)^[i] (startW t winding)))).2.1 /
          double_triangle_area t winding +
        (stepY t ((stepY t)^[j] ((stepX t)^[i] (startW t winding)))).2.2 /
          double_triangle_area t winding +
        (stepY t ((stepY t)^[j] ((stepX t)^[i] (startW t winding)))).1 /
          double_triangle_area t winding = 1) := by
  have key : ((stepY t)^[j] ((stepX t)^[i] (startW t winding))).1 +
      ((stepY t)^[j] ((stepX t)^[i] (startW t winding))).2.1 +
      ((stepY t)^[j] ((stepX t)^[i] (startW t winding))).2.2 =
      double_triangle_area t winding := by
    rw [stepX_iterate, stepY_iterate]
    simp only [deltaX, deltaY, double_triangle_area]
    ring
  refine ⟨by simp only [deltaX]; ring, by simp only [deltaY]; ring, key, ?_⟩
  intro hne
  have hs : (stepY t ((stepY t)^[j] ((stepX t)^[i] (startW t winding)))).1 +
      (stepY t ((stepY t)^[j] ((stepX t)^[i] (startW t winding)))).2.1 +
      (stepY t ((stepY t)^[j] ((stepX t)^[i] (startW t winding)))).2.2 =
      double_triangle_area t winding := by
    rw [stepY_sum]
    exact key
  rw [div_add_div_same, div_add_div_same]
  rw [show (stepY t ((stepY t)^[j] ((stepX t)^[i] (startW t winding)))).2.1 +
      (stepY t ((stepY t)^[j] ((stepX t)^[i] (startW t winding)))).2.2 +
      (stepY t ((stepY t)^[j] ((stepX t)^[i] (startW t winding)))).1 =
      double_triangle_area t winding from by linarith]
  exact div_self hne

/-- C3 witness: the invariant instantiated on the concrete triangle
`exTriP` (area 14) at scan offset `(0, 0)`. -/
theorem C3_area_invariant_witness :
    double_triangle_area exTriP WindingOrder.CCW ≠ 0 ∧
    (stepY exTriP ((stepY exTriP)^[0] ((stepX exTriP)^[0]
          (startW exTriP WindingOrder.CCW)))).2.1 /
        double_triangle_area exTriP WindingOrder.CCW +
      (stepY exTriP ((stepY exTriP)^[0] ((stepX exTriP)^[0]
          (startW exTriP WindingOrder.CCW)))).2.2 /
        double_triangle_area exTriP WindingOrder.CCW +
      (stepY exTriP ((stepY exTriP)^[0] ((stepX exTriP)^[0]
          (startW exTriP WindingOrder.CCW)))).1 /
        double_triangle_area exTriP WindingOrder.CCW = 1 := by
  have hne : double_triangle_area exTriP WindingOrder.CCW ≠ 0 := by
    norm_num [double_triangle_area, startW, startPoint, edge_fn, bias, is_top_left,
      Triangle.get_bounding_box, Range.find_min_max3, exTriP, mkVert, Vec3.new]
  exact ⟨hne, (C3_area_invariant exTriP WindingOrder.CCW 0 0).2.2.2 hne⟩

/-- C7: a zero-area triangle (collinear vertices, coincident included)
produces an empty write list under either winding order, leaving the
frame buffer unchanged — in particular no NaN/Inf colour is ever
written.  The biased start values sum to the (zero) doubled area plus the
strictly negative bias sum, and that sum is invariant under the scan, so
no pixel ever passes the coverage test. -/
theorem C7_degenerate (t : Triangle) (fb : FrameBuffer) (winding : WindingOrder)
    (hdeg : cross2 t.v0.vertex t.v1.vertex t.v2.vertex = 0) :
    rasterise_writes t winding = [] ∧ rasterise_triangle t fb winding = fb := by
  have hnot := not_all_top_left t.v0.vertex t.v1.vertex t.v2.vertex winding
  have hbias : bias t.v0.vertex t.v1.vertex winding +
      bias t.v1.vertex t.v2.vertex winding +
      bias t.v2.vertex t.v0.vertex winding < 0 := by
    have hb0 := bias_nonpos t.v0.vertex t.v1.vertex winding
    have hb1 := bias_nonpos t.v1.vertex t.v2.vertex winding
    have hb2 := bias_nonpos t.v2.vertex t.v0.vertex winding
    by_cases ht1 : is_top_left t.v0.vertex t.v1.vertex winding = true
    · by_cases ht2 : is_top_left t.v1.vertex t.v2.vertex winding = true
      · have ht3 : ¬(is_top_left t.v2.vertex t.v0.vertex winding = true) :=
          fun h => hnot ⟨ht1, ht2, h⟩
        have hv : bias t.v2.vertex t.v0.vertex winding = -1 := by
          simp [bias, ht3]
        linarith
      · have hv : bias t.v1.vertex t.v2.vertex winding = -1 := by
          simp [bias, ht2]
        linarith
    · have hv : bias t.v0.vertex t.v1.vertex winding = -1 := by
        simp [bias, ht1]
      linarith
  have hedge : edge_fn t.v0.vertex t.v1.vertex (startPoint t) winding +
      edge_fn t.v1.vertex t.v2.vertex (startPoint t) winding +
      edge_fn t.v2.vertex t.v0.vertex (startPoint t) winding = 0 := by
    cases winding
    · rw [edge_fn_sum_CCW, hdeg]
    · rw [edge_fn_sum_CW, hdeg, neg_zero]
  have hstart : (startW t winding).1 + (startW t winding).2.1 +
      (startW t winding).2.2 < 0 := by
    simp only [startW]
    linarith
  have h1 : rasterise_writes t winding = [] := by
    unfold rasterise_writes
    exact colWrites_eq_nil _ _ _ _ _ _ _ hstart
  refine ⟨h1, ?_⟩
  unfold rasterise_triangle
  rw [h1]
  rfl

/-- C7 witness: the concrete collinear triangle `exTriL` writes nothing
into the 4×4 buffer `exBuf`. -/
theorem C7_degenerate_witness :
    rasterise_writes exTriL WindingOrder.CCW = [] ∧
      rasterise_triangle exTriL exBuf WindingOrder.CCW = exBuf :=
  C7_degenerate exTriL exBuf WindingOrder.CCW (by norm_num [cross2, exTriL, mkVert])

/-- C2 (amended): under CCW winding, for two positively oriented triangles
sharing edge `a–b` (traversed `a→b` in the first and `b→a` in the second)
and a pixel centre lying exactly on the shared edge, if additionally the
two *non-shared* edges of each triangle pass the biased edge test at that
centre (the −1 bias demands a margin of one edge-function unit on
non-top-left edges, not mere closed-boundary membership as originally
claimed), then exactly one of the two triangles writes the pixel.  (The
original claim also fails for CW winding, whose scan is mis-stepped.) -/
theorem C2_shared_edge_exclusive
    (a b c1 c2 : Vec3) (aa ab ac ba bb bc : VertexAttributes) (x y : ℤ)
    (harea1 : 0 < cross2 a b c1)
    (harea2 : 0 < cross2 b a c2)
    (hshared : edge_fn a b ⟨(x : ℚ) + 1/2, (y : ℚ) + 1/2, 0⟩ WindingOrder.CCW = 0)
    (hm1 : 0 ≤ edge_fn b c1 ⟨(x : ℚ) + 1/2, (y : ℚ) + 1/2, 0⟩ WindingOrder.CCW +
      bias b c1 WindingOrder.CCW)
    (hm2 : 0 ≤ edge_fn c1 a ⟨(x : ℚ) + 1/2, (y : ℚ) + 1/2, 0⟩ WindingOrder.CCW +
      bias c1 a WindingOrder.CCW)
    (hm3 : 0 ≤ edge_fn a c2 ⟨(x : ℚ) + 1/2, (y : ℚ) + 1/2, 0⟩ WindingOrder.CCW +
      bias a c2 WindingOrder.CCW)
    (hm4 : 0 ≤ edge_fn c2 b ⟨(x : ℚ) + 1/2, (y : ℚ) + 1/2, 0⟩ WindingOrder.CCW +
      bias c2 b WindingOrder.CCW) :
    (writes_pixel ⟨⟨a, aa⟩, ⟨b, ab⟩, ⟨c1, ac⟩⟩ WindingOrder.CCW x y ↔
      ¬ writes_pixel ⟨⟨b, ba⟩, ⟨a, bb⟩, ⟨c2, bc⟩⟩ WindingOrder.CCW x y) := by
  have hb1 := bias_nonpos b c1 WindingOrder.CCW
  have hb2 := bias_nonpos c1 a WindingOrder.CCW
  have hb3 := bias_nonpos a c2 WindingOrder.CCW
  have hb4 := bias_nonpos c2 b WindingOrder.CCW
  have u1 : 0 ≤ edge_fn b c1 ⟨(x : ℚ) + 1/2, (y : ℚ) + 1/2, 0⟩ WindingOrder.CCW := by
    linarith
  have u2 : 0 ≤ edge_fn c1 a ⟨(x : ℚ) + 1/2, (y : ℚ) + 1/2, 0⟩ WindingOrder.CCW := by
    linarith
  have u3 : 0 ≤ edge_fn a c2 ⟨(x : ℚ) + 1/2, (y : ℚ) + 1/2, 0⟩ WindingOrder.CCW := by
    linarith
  have u4 : 0 ≤ edge_fn c2 b ⟨(x : ℚ) + 1/2, (y : ℚ) + 1/2, 0⟩ WindingOrder.CCW := by
    linarith
  have hsw : edge_fn b a ⟨(x : ℚ) + 1/2, (y : ℚ) + 1/2, 0⟩ WindingOrder.CCW = 0 := by
    rw [edge_fn_swap, hshared, neg_zero]
  have hbb1 := covered_in_bb ⟨⟨a, aa⟩, ⟨b, ab⟩, ⟨c1, ac⟩⟩
    ⟨(x : ℚ) + 1/2, (y : ℚ) + 1/2, 0⟩ hshared.symm.le u1 u2 harea1
  have hbb2 := covered_in_bb ⟨⟨b, ba⟩, ⟨a, bb⟩, ⟨c2, bc⟩⟩
    ⟨(x : ℚ) + 1/2, (y : ℚ) + 1/2, 0⟩ hsw.symm.le u3 u4 harea2
  obtain ⟨ha1, ha2, ha3, ha4⟩ := hbb1
  obtain ⟨hc1, hc2, hc3, hc4⟩ := hbb2
  have hxne : a.x ≠ b.x ∨ a.y ≠ b.y := by
    by_contra hcon
    push_neg at hcon
    obtain ⟨hx', hy'⟩ := hcon
    have hzero : cross2 a b c1 = 0 := by
      simp only [cross2, hx', hy']
      ring
    linarith
  have hcov1 : writes_pixel ⟨⟨a, aa⟩, ⟨b, ab⟩, ⟨c1, ac⟩⟩ WindingOrder.CCW x y ↔
      is_top_left a b WindingOrder.CCW = true := by
    rw [writes_pixel_iff_CCW]
    constructor
    · intro h
      have h5 := h.2.2.2.2.1
      rw [← bias_nonneg_iff]
      dsimp only at h5
      linarith
    · intro htl
      have hbz : bias a b WindingOrder.CCW = 0 := by
        simp [bias, htl]
      refine ⟨int_le_of_le_center _ _ _ (Int.floor_le _) ha1,
        lt_ceil_of_center_le _ _ ha2,
        int_le_of_le_center _ _ _ (Int.floor_le _) ha3,
        lt_ceil_of_center_le _ _ ha4, ?_, hm1, hm2⟩
      dsimp only
      rw [hshared, hbz]
      norm_num
  have hcov2 : writes_pixel ⟨⟨b, ba⟩, ⟨a, bb⟩, ⟨c2, bc⟩⟩ WindingOrder.CCW x y ↔
      is_top_left b a WindingOrder.CCW = true := by
    rw [writes_pixel_iff_CCW]
    constructor
    · intro h
      have h5 := h.2.2.2.2.1
      rw [← bias_nonneg_iff]
      dsimp only at h5
      linarith
    · intro htl
      have hbz : bias b a WindingOrder.CCW = 0 := by
        simp [bias, htl]
      refine ⟨int_le_of_le_center _ _ _ (Int.floor_le _) hc1,
        lt_ceil_of_center_le _ _ hc2,
        int_le_of_le_center _ _ _ (Int.floor_le _) hc3,
        lt_ceil_of_center_le _ _ hc4, ?_, hm3, hm4⟩
      dsimp only
      rw [hsw, hbz]
      norm_num
  rw [hcov1, hcov2]
  exact is_top_left_antisymm a b hxne

/-- C2 witness: a concrete CCW pair sharing the vertical edge
`(3/2,0)–(3/2,3)` with third vertices far enough away that both margin
hypotheses hold at pixel `(1,1)`; exactly one of the two writes it. -/
theorem C2_shared_edge_exclusive_witness :
    edge_fn ⟨3/2, 0, 0⟩ ⟨3/2, 3, 0⟩ ⟨((1 : ℤ) : ℚ) + 1/2, ((1 : ℤ) : ℚ) + 1/2, 0⟩
        WindingOrder.CCW = 0 ∧
    (writes_pixel ⟨⟨⟨3/2, 0, 0⟩, ⟨blankC⟩⟩, ⟨⟨3/2, 3, 0⟩, ⟨blankC⟩⟩,
        ⟨⟨-3, 3/2, 0⟩, ⟨blankC⟩⟩⟩ WindingOrder.CCW 1 1 ↔
      ¬ writes_pixel ⟨⟨⟨3/2, 3, 0⟩, ⟨blankC⟩⟩, ⟨⟨3/2, 0, 0⟩, ⟨blankC⟩⟩,
        ⟨⟨6, 3/2, 0⟩, ⟨blankC⟩⟩⟩ WindingOrder.CCW 1 1) := by
  constructor
  · norm_num [edge_fn]
  · exact C2_shared_edge_exclusive ⟨3/2, 0, 0⟩ ⟨3/2, 3, 0⟩ ⟨-3, 3/2, 0⟩ ⟨6, 3/2, 0⟩
      ⟨blankC⟩ ⟨blankC⟩ ⟨blankC⟩ ⟨blankC⟩ ⟨blankC⟩ ⟨blankC⟩ 1 1
      (by norm_num [cross2]) (by norm_num [cross2]) (by norm_num [edge_fn])
      (by norm_num [edge_fn, bias, is_top_left])
      (by norm_num [edge_fn, bias, is_top_left])
      (by norm_num [edge_fn, bias, is_top_left])
      (by norm_num [edge_fn, bias, is_top_left])

/-- C2 counterexample: as originally stated (pixel centre on the shared
edge and inside both closed triangles, positively oriented consistent
winding) the exactly-one property fails.  CCW instance `exTriA`/`exTriB`:
the pixel centre `(3/2,3/2)` is on the shared edge and inside both, yet
*neither* triangle writes pixel `(1,1)` — the owning direction of the
shared edge belongs to `exTriB`, whose thin side edge is pushed below 0 by
the −1 bias.  CW instance `exTriC`/`exTriD`: same shared edge, positive CW
orientation, and again neither triangle writes the pixel, the CW scan
being mis-stepped. -/
theorem C2_exclusivity_fails :
    (edge_fn exTriA.v0.vertex exTriA.v1.vertex ⟨3/2, 3/2, 0⟩ WindingOrder.CCW = 0 ∧
      0 ≤ edge_fn exTriA.v1.vertex exTriA.v2.vertex ⟨3/2, 3/2, 0⟩ WindingOrder.CCW ∧
      0 ≤ edge_fn exTriA.v2.vertex exTriA.v0.vertex ⟨3/2, 3/2, 0⟩ WindingOrder.CCW ∧
      0 ≤ edge_fn exTriB.v1.vertex exTriB.v2.vertex ⟨3/2, 3/2, 0⟩ WindingOrder.CCW ∧
      0 ≤ edge_fn exTriB.v2.vertex exTriB.v0.vertex ⟨3/2, 3/2, 0⟩ WindingOrder.CCW ∧
      0 < cross2 exTriA.v0.vertex exTriA.v1.vertex exTriA.v2.vertex ∧
      0 < cross2 exTriB.v0.vertex exTriB.v1.vertex exTriB.v2.vertex ∧
      exTriA.v2.vertex.x ≠ exTriB.v2.vertex.x) ∧
    (¬ writes_pixel exTriA WindingOrder.CCW 1 1 ∧
      ¬ writes_pixel exTriB WindingOrder.CCW 1 1) ∧
    (edge_fn exTriC.v0.vertex exTriC.v1.vertex ⟨3/2, 3/2, 0⟩ WindingOrder.CW = 0 ∧
      0 ≤ edge_fn exTriC.v1.vertex exTriC.v2.vertex ⟨3/2, 3/2, 0⟩ WindingOrder.CW ∧
      0 ≤ edge_fn exTriC.v2.vertex exTriC.v0.vertex ⟨3/2, 3/2, 0⟩ WindingOrder.CW ∧
      0 ≤ edge_fn exTriD.v1.vertex exTriD.v2.vertex ⟨3/2, 3/2, 0⟩ WindingOrder.CW ∧
      0 ≤ edge_fn exTriD.v2.vertex exTriD.v0.vertex ⟨3/2, 3/2, 0⟩ WindingOrder.CW ∧
      0 < edge_fn exTriC.v0.vertex exTriC.v1.vertex ⟨3/2, 3/2, 0⟩ WindingOrder.CW +
        edge_fn exTriC.v1.vertex exTriC.v2.vertex ⟨3/2, 3/2, 0⟩ WindingOrder.CW +
        edge_fn exTriC.v2.vertex exTriC.v0.vertex ⟨3/2, 3/2, 0⟩ WindingOrder.CW ∧
      0 < edge_fn exTriD.v0.vertex exTriD.v1.vertex ⟨3/2, 3/2, 0⟩ WindingOrder.CW +
        edge_fn exTriD.v1.vertex exTriD.v2.vertex ⟨3/2, 3/2, 0⟩ WindingOrder.CW +
        edge_fn exTriD.v2.vertex exTriD.v0.vertex ⟨3/2, 3/2, 0⟩ WindingOrder.CW) ∧
    (¬ writes_pixel exTriC WindingOrder.CW 1 1 ∧
      ¬ writes_pixel exTriD WindingOrder.CW 1 1) := by
  refine ⟨by norm_num [edge_fn, cross2, exTriA, exTriB, mkVert], ⟨?_, ?_⟩,
    by norm_num [edge_fn, exTriC, exTriD, mkVert], ⟨?_, ?_⟩⟩
  · rw [writes_pixel_iff_CCW]
    intro h
    have h5 := h.2.2.2.2.1
    norm_num [edge_fn, bias, is_top_left, exTriA, mkVert] at h5
  · rw [writes_pixel_iff_CCW]
    intro h
    have h6 := h.2.2.2.2.2.1
    norm_num [edge_fn, bias, is_top_left, exTriB, mkVert] at h6
  · rw [writes_pixel_iff_CW]
    intro h
    have h7 := h.2.2.2.2.2.2
    norm_num [edge_fn, bias, is_top_left, startPoint, Triangle.get_bounding_box,
      Range.find_min_max3, exTriC, mkVert, Vec3.new] at h7
  · rw [writes_pixel_iff_CW]
    intro h
    have h6 := h.2.2.2.2.2.1
    norm_num [edge_fn, bias, is_top_left, startPoint, Triangle.get_bounding_box,
      Range.find_min_max3, exTriD, mkVert, Vec3.new] at h6

/-- The scan of `exTriP` writes pixel `(0,0)` with the colour obtained by
plain barycentric weighting: red `140 · (7/14) = 70`. -/
lemma exTriP_mem_write :
    (⟨0, 0, (⟨70, 0, 0, 0⟩ : Colour8)⟩ : Rasterise.Write) ∈
      rasterise_writes exTriP WindingOrder.CCW := by
  rw [mem_rasterise_writes]
  refine ⟨0, ?_, 0, ?_, ?_, ?_⟩
  · norm_num [Triangle.get_bounding_box, Range.find_min_max3, exTriP, mkVert]
  · norm_num [Triangle.get_bounding_box, Range.find_min_max3, exTriP, mkVert]
  · simp only [Function.iterate_zero, id_eq]
    norm_num [startW, startPoint, edge_fn, bias, is_top_left,
      Triangle.get_bounding_box, Range.find_min_max3, exTriP, mkVert, Vec3.new]
  · simp only [Function.iterate_zero, id_eq, Write.mk.injEq, zero_add,
      Function.iterate_one]
    refine ⟨by norm_num [Triangle.get_bounding_box, Range.find_min_max3, exTriP, mkVert],
      by norm_num [Triangle.get_bounding_box, Range.find_min_max3, exTriP, mkVert], ?_⟩
    norm_num [colourOf, Colour8.add, Colour8.multiply_float, byteClamp, stepY,
      deltaY, startW, startPoint, double_triangle_area, edge_fn, bias, is_top_left,
      Triangle.get_bounding_box, Range.find_min_max3, exTriP, mkVert, Vec3.new, blankC]
    decide

/-- C4 (amended): the rasteriser interpolates the written colour by the
*plain* barycentric sum `colour = Σ colour_i · l_i` with
`l0 = w1/area, l1 = w2/area, l2 = w0/area`, where the weights come from
the biased incremental edge values read *after* the per-row step (one row
above the written pixel); no perspective correction is applied and the
vertex depths are never used.  (The original claim asserted
perspective-correct interpolation via interpolated inverse depths.) -/
theorem C4_plain_barycentric (t : Triangle) (x y : ℤ) (c : Colour8)
    (h : (⟨x, y, c⟩ : Rasterise.Write) ∈ rasterise_writes t WindingOrder.CCW) :
    c = colourOf t (double_triangle_area t WindingOrder.CCW)
      (edge_fn t.v0.vertex t.v1.vertex ⟨(x : ℚ) + 1/2, (y : ℚ) + 1 + 1/2, 0⟩
          WindingOrder.CCW + bias t.v0.vertex t.v1.vertex WindingOrder.CCW,
        edge_fn t.v1.vertex t.v2.vertex ⟨(x : ℚ) + 1/2, (y : ℚ) + 1 + 1/2, 0⟩
          WindingOrder.CCW + bias t.v1.vertex t.v2.vertex WindingOrder.CCW,
        edge_fn t.v2.vertex t.v0.vertex ⟨(x : ℚ) + 1/2, (y : ℚ) + 1 + 1/2, 0⟩
          WindingOrder.CCW + bias t.v2.vertex t.v0.vertex WindingOrder.CCW) := by
  rw [mem_rasterise_writes] at h
  obtain ⟨i, hi, j, hj, hcond, heq⟩ := h
  have hx : x = ⌊(t.get_bounding_box).x.min⌋ + i := congrArg Rasterise.Write.x heq
  have hy : y = ⌊(t.get_bounding_box).y.min⌋ + j := congrArg Rasterise.Write.y heq
  have hc : c = colourOf t (double_triangle_area t WindingOrder.CCW)
      ((stepY t)^[j + 1] ((stepX t)^[i] (startW t WindingOrder.CCW))) :=
    congrArg Rasterise.Write.colour heq
  have hpt : (⟨(startPoint t).x + (i : ℕ), (startPoint t).y + ((j + 1 : ℕ) : ℚ),
      (startPoint t).z⟩ : Vec3) =
      ⟨(x : ℚ) + 1/2, (y : ℚ) + 1 + 1/2, 0⟩ := by
    simp only [startPoint, Vec3.new, Vec3.mk.injEq]
    refine ⟨by rw [hx]; push_cast; ring, by rw [hy]; push_cast; ring, trivial⟩
  rw [hc, scanW_CCW t i (j + 1), hpt]

/-- C4 witness: at pixel `(0,0)` of `exTriP` the written colour
`(70,0,0,0)` equals the plain barycentric combination. -/
theorem C4_plain_barycentric_witness :
    (⟨0, 0, (⟨70, 0, 0, 0⟩ : Colour8)⟩ : Rasterise.Write) ∈
      rasterise_writes exTriP WindingOrder.CCW ∧
    (⟨70, 0, 0, 0⟩ : Colour8) = colourOf exTriP
      (double_triangle_area exTriP WindingOrder.CCW)
      (edge_fn exTriP.v0.vertex exTriP.v1.vertex
          ⟨((0 : ℤ) : ℚ) + 1/2, ((0 : ℤ) : ℚ) + 1 + 1/2, 0⟩ WindingOrder.CCW +
          bias exTriP.v0.vertex exTriP.v1.vertex WindingOrder.CCW,
        edge_fn exTriP.v1.vertex exTriP.v2.vertex
          ⟨((0 : ℤ) : ℚ) + 1/2, ((0 : ℤ) : ℚ) + 1 + 1/2, 0⟩ WindingOrder.CCW +
          bias exTriP.v1.vertex exTriP.v2.vertex WindingOrder.CCW,
        edge_fn exTriP.v2.vertex exTriP.v0.vertex
          ⟨((0 : ℤ) : ℚ) + 1/2, ((0 : ℤ) : ℚ) + 1 + 1/2, 0⟩ WindingOrder.CCW +
          bias exTriP.v2.vertex exTriP.v0.vertex WindingOrder.CCW) :=
  ⟨exTriP_mem_write, C4_plain_barycentric exTriP 0 0 ⟨70, 0, 0, 0⟩ exTriP_mem_write⟩

/-- C4 counterexample: `exTriP` has pairwise distinct vertex depths, its
pixel `(0,0)` — whose true barycentric weights are
`l0 = w1/2A = 3/4, l1 = w2/2A = 1/8, l2 = w0/2A = 1/8` — receives the
plain barycentric colour `(70,0,0,0)`, while the spec's perspective-correct
formula yields red 124 at those weights (and 105 at the scan's own
post-step weights `1/2, 1/7, 5/14`): the written attribute is not
perspective-correct. -/
theorem C4_not_perspective_correct :
    (⟨0, 0, (⟨70, 0, 0, 0⟩ : Colour8)⟩ : Rasterise.Write) ∈
      rasterise_writes exTriP WindingOrder.CCW ∧
    (exTriP.v0.vertex.z ≠ exTriP.v1.vertex.z ∧
      exTriP.v1.vertex.z ≠ exTriP.v2.vertex.z ∧
      exTriP.v0.vertex.z ≠ exTriP.v2.vertex.z) ∧
    (edge_fn exTriP.v1.vertex exTriP.v2.vertex ⟨1/2, 1/2, 0⟩ WindingOrder.CCW /
        cross2 exTriP.v0.vertex exTriP.v1.vertex exTriP.v2.vertex = 3/4 ∧
      edge_fn exTriP.v2.vertex exTriP.v0.vertex ⟨1/2, 1/2, 0⟩ WindingOrder.CCW /
        cross2 exTriP.v0.vertex exTriP.v1.vertex exTriP.v2.vertex = 1/8 ∧
      edge_fn exTriP.v0.vertex exTriP.v1.vertex ⟨1/2, 1/2, 0⟩ WindingOrder.CCW /
        cross2 exTriP.v0.vertex exTriP.v1.vertex exTriP.v2.vertex = 1/8) ∧
    perspective_correct_colour exTriP (3/4) (1/8) (1/8) = ⟨124, 0, 0, 0⟩ ∧
    perspective_correct_colour exTriP (1/2) (1/7) (5/14) = ⟨105, 0, 0, 0⟩ ∧
    (⟨124, 0, 0, 0⟩ : Colour8) ≠ ⟨70, 0, 0, 0⟩ ∧
    (⟨105, 0, 0, 0⟩ : Colour8) ≠ ⟨70, 0, 0, 0⟩ := by
  refine ⟨exTriP_mem_write, by norm_num [exTriP, mkVert],
    by norm_num [edge_fn, cross2, exTriP, mkVert], ?_, ?_, by decide, by decide⟩
  · norm_num [perspective_correct_colour, byteClamp, exTriP, mkVert, blankC]
    decide
  · norm_num [perspective_correct_colour, byteClamp, exTriP, mkVert, blankC]
    decide

lemma writeSwallow_width (fb : FrameBuffer) (w : Rasterise.Write) :
    (writeSwallow fb w).width_px = fb.width_px ∧
      (writeSwallow fb w).height_px = fb.height_px := by
  unfold writeSwallow FrameBuffer.write_buf
  split_ifs <;> exact ⟨rfl, rfl⟩

lemma writeSwallow_oob (fb : FrameBuffer) (w : Rasterise.Write)
    (h : usize_of_i32 w.x ≥ fb.width_px ∨ usize_of_i32 w.y ≥ fb.height_px) :
    writeSwallow fb w = fb := by
  unfold writeSwallow FrameBuffer.write_buf
  rw [if_pos h]

/-- Folding the swallowed writes over the buffer ignores exactly the
out-of-bounds ones: they hit `write_buf`'s error branch, which leaves the
buffer unchanged, and the scan continues. -/
lemma foldl_writeSwallow_filter (W H : ℕ) :
    ∀ (l : List Rasterise.Write) (fb : FrameBuffer),
      fb.width_px = W → fb.height_px = H →
      l.foldl writeSwallow fb =
        (l.filter (fun w => decide (usize_of_i32 w.x < W) &&
          decide (usize_of_i32 w.y < H))).foldl writeSwallow fb := by
  intro l
  induction l with
  | nil => intro fb _ _; rfl
  | cons w l ih =>
      intro fb hW hH
      by_cases hin : usize_of_i32 w.x < W ∧ usize_of_i32 w.y < H
      · have hfil : (w :: l).filter (fun w => decide (usize_of_i32 w.x < W) &&
            decide (usize_of_i32 w.y < H)) =
            w :: l.filter (fun w => decide (usize_of_i32 w.x < W) &&
              decide (usize_of_i32 w.y < H)) := by
          simp [List.filter_cons, hin.1, hin.2]
        rw [hfil, List.foldl_cons, List.foldl_cons]
        exact ih (writeSwallow fb w)
          (by rw [(writeSwallow_width fb w).1, hW])
          (by rw [(writeSwallow_width fb w).2, hH])
      · have hfil : (w :: l).filter (fun w => decide (usize_of_i32 w.x < W) &&
            decide (usize_of_i32 w.y < H)) =
            l.filter (fun w => decide (usize_of_i32 w.x < W) &&
              decide (usize_of_i32 w.y < H)) := by
          simp only [List.filter_cons, Bool.and_eq_true, decide_eq_true_eq]
          rw [if_neg hin]
        have hskip : writeSwallow fb w = fb := by
          apply writeSwallow_oob
          rw [hW, hH]
          omega
        rw [hfil, List.foldl_cons, hskip]
        exact ih fb hW hH

/-- C6 (amended): `rasterise_triangle` performs no bounding-box clamp
against the sink; instead every out-of-bounds coordinate it passes to
`write_buf` (negative coordinates wrap through the `as usize` cast) is
rejected by the defensive bounds check, whose error is swallowed, so the
final buffer equals the fold of the in-bounds writes alone and the scan
never aborts.  (The original claim said the clamp makes the
`PixelOutsideBuf` branch unreachable; the branch is in fact reachable.) -/
theorem C6_unclamped_writes_swallowed (t : Triangle) (fb : FrameBuffer)
    (winding : WindingOrder) :
    rasterise_triangle t fb winding =
      ((rasterise_writes t winding).filter (fun w =>
        decide (usize_of_i32 w.x < fb.width_px) &&
        decide (usize_of_i32 w.y < fb.height_px))).foldl writeSwallow fb :=
  foldl_writeSwallow_filter fb.width_px fb.height_px
    (rasterise_writes t winding) fb rfl rfl

/-- C6 counterexample: the triangle `exTriN` reaches pixel `(−3, −1)`,
whose wrapped `usize` coordinates are far outside the 4×4 buffer `exBuf`,
so the rasteriser does pass an out-of-bounds coordinate to `write_buf` and
the `PixelOutsideBuf` error branch is taken. -/
theorem C6_oob_write_reachable :
    (⟨-3, -1, blankC⟩ : Rasterise.Write) ∈
      rasterise_writes exTriN WindingOrder.CCW ∧
    usize_of_i32 (-3) ≥ exBuf.width_px ∧
    exBuf.write_buf (usize_of_i32 (-3)) (usize_of_i32 (-1)) blankC =
      Except.error FrameBufError.PixelOutsideBuf := by
  refine ⟨?_, by decide, ?_⟩
  · rw [mem_rasterise_writes]
    refine ⟨0, ?_, 0, ?_, ?_, ?_⟩
    · norm_num [Triangle.get_bounding_box, Range.find_min_max3, exTriN, mkVert]
    · norm_num [Triangle.get_bounding_box, Range.find_min_max3, exTriN, mkVert]
    · simp only [Function.iterate_zero, id_eq]
      norm_num [startW, startPoint, edge_fn, bias, is_top_left,
        Triangle.get_bounding_box, Range.find_min_max3, exTriN, mkVert, Vec3.new]
    · simp only [Function.iterate_zero, id_eq, Write.mk.injEq, zero_add,
        Function.iterate_one]
      refine ⟨by norm_num [Triangle.get_bounding_box, Range.find_min_max3, exTriN, mkVert],
        by norm_num [Triangle.get_bounding_box, Range.find_min_max3, exTriN, mkVert], ?_⟩
      norm_num [colourOf, Colour8.add, Colour8.multiply_float, byteClamp, stepY,
        deltaY, startW, startPoint, double_triangle_area, edge_fn, bias, is_top_left,
        Triangle.get_bounding_box, Range.find_min_max3, exTriN, mkVert, Vec3.new, blankC]
  · unfold FrameBuffer.write_buf
    rw [if_pos]
    left
    decide

/-- C5: `point_to_screen` first applies the world-to-camera homogeneous
transform (with perspective divide), fails with `PointCLipped` exactly
when the camera-space depth lies outside `[z_near, z_far]`, and otherwise
projects `x / (−z) · z_near` and `y / z · z_near`, passing the depth
through unchanged. -/
theorem C5_point_to_screen (c : Camera) (p : Vec3) :
    (Camera.point_to_screen c p = Except.error ProjectionError.PointCLipped ↔
      ((p.homogeneous_mult_matrix c.transformation_matrix).z < c.z_near ∨
        c.z_far < (p.homogeneous_mult_matrix c.transformation_matrix).z)) ∧
    (c.z_near ≤ (p.homogeneous_mult_matrix c.transformation_matrix).z →
      (p.homogeneous_mult_matrix c.transformation_matrix).z ≤ c.z_far →
      Camera.point_to_screen c p = Except.ok (Vec3.new
        ((p.homogeneous_mult_matrix c.transformation_matrix).x /
          -(p.homogeneous_mult_matrix c.transformation_matrix).z * c.z_near)
        ((p.homogeneous_mult_matrix c.transformation_matrix).y /
          (p.homogeneous_mult_matrix c.transformation_matrix).z * c.z_near)
        (p.homogeneous_mult_matrix c.transformation_matrix).z)) := by
  simp only [Camera.point_to_screen]
  split_ifs with h
  · refine ⟨⟨fun _ => h, fun _ => rfl⟩, fun h1 h2 => ?_⟩
    exfalso
    rcases h with h | h <;> linarith
  · refine ⟨⟨fun hcon => absurd hcon (by simp), fun hd => absurd hd h⟩,
      fun _ _ => rfl⟩

/-- C5 witness: with the all-ones transform the point `(0,0,5)` maps to
camera point `(1,1,1)` after the perspective divide; depth 1 lies inside
`[1, 100]`, the clip test does not fire and the projection formula
applies. -/
theorem C5_point_to_screen_witness :
    (Camera.point_to_screen exCam ⟨0, 0, 5⟩ =
        Except.error ProjectionError.PointCLipped ↔
      (((⟨0, 0, 5⟩ : Vec3).homogeneous_mult_matrix
          exCam.transformation_matrix).z < exCam.z_near ∨
        exCam.z_far < ((⟨0, 0, 5⟩ : Vec3).homogeneous_mult_matrix
          exCam.transformation_matrix).z)) ∧
    Camera.point_to_screen exCam ⟨0, 0, 5⟩ = Except.ok (Vec3.new
      (((⟨0, 0, 5⟩ : Vec3).homogeneous_mult_matrix exCam.transformation_matrix).x /
        -((⟨0, 0, 5⟩ : Vec3).homogeneous_mult_matrix exCam.transformation_matrix).z *
        exCam.z_near)
      (((⟨0, 0, 5⟩ : Vec3).homogeneous_mult_matrix exCam.transformation_matrix).y /
        ((⟨0, 0, 5⟩ : Vec3).homogeneous_mult_matrix exCam.transformation_matrix).z *
        exCam.z_near)
      ((⟨0, 0, 5⟩ : Vec3).homogeneous_mult_matrix exCam.transformation_matrix).z) :=
  ⟨(C5_point_to_screen exCam ⟨0, 0, 5⟩).1,
    (C5_point_to_screen exCam ⟨0, 0, 5⟩).2
      (by norm_num [exCam, Camera.new, Vec3.homogeneous_mult_matrix])
      (by norm_num [exCam, Camera.new, Vec3.homogeneous_mult_matrix])⟩

/-- C9: the in-place and pure triangle transforms agree, both replace
each vertex position with its homogeneous matrix transform, and both leave
every vertex's attributes unchanged. -/
theorem C9_transform_forms_agree (t : Triangle) (m : Matrix44) :
    t.transform_this_triangle m = t.transform_triangle m ∧
    (t.transform_triangle m).v0.vertex = t.v0.vertex.homogeneous_mult_matrix m ∧
    (t.transform_triangle m).v1.vertex = t.v1.vertex.homogeneous_mult_matrix m ∧
    (t.transform_triangle m).v2.vertex = t.v2.vertex.homogeneous_mult_matrix m ∧
    (t.transform_triangle m).v0.attributes = t.v0.attributes ∧
    (t.transform_triangle m).v1.attributes = t.v1.attributes ∧
    (t.transform_triangle m).v2.attributes = t.v2.attributes :=
  ⟨rfl, rfl, rfl, rfl, rfl, rfl, rfl⟩

/-- C10: a screen point whose normalised x coordinate is exactly 1 (the
canvas's right edge) passes the strictly-greater-than-1 rejection test, so
`screen_to_raster` succeeds and returns raster x = `image_size.x` — one
past the last valid pixel index, which every conforming sink rejects. -/
theorem C10_edge_ndc_escapes (c : Camera) (p : Vec3)
    (hx : p.x / c.canvas_size.x + 1/2 = 1)
    (hy0 : 0 ≤ p.y / c.canvas_size.y + 1/2)
    (hy1 : p.y / c.canvas_size.y + 1/2 ≤ 1) :
    Camera.screen_to_raster c p = Except.ok
      ⟨c.image_size.x, ⌊(p.y / c.canvas_size.y + 1/2) * (c.image_size.y : ℚ)⌋⟩ ∧
    ∀ fb : FrameBuffer, fb.width_px = (c.image_size.x).toNat →
      ∀ (ycoord : ℕ) (col : Colour8),
        fb.write_buf (c.image_size.x).toNat ycoord col =
          Except.error FrameBufError.PixelOutsideBuf := by
  constructor
  · simp only [Camera.screen_to_raster]
    rw [if_neg]
    · rw [hx]
      norm_num
    · rw [hx]
      push_neg
      exact ⟨le_refl 1, by norm_num, hy1, hy0⟩
  · intro fb hfb ycoord col
    unfold FrameBuffer.write_buf
    rw [if_pos (Or.inl (by rw [hfb]))]

/-- C10 witness: for the concrete camera `exCam` (canvas 1×1, image 8×8)
and the screen point `(1/2, 0, 5)` on the canvas's right edge, the raster
x coordinate is 8 — the image width — and the 8×8 sink rejects it. -/
theorem C10_edge_ndc_escapes_witness :
    Camera.screen_to_raster exCam ⟨1/2, 0, 5⟩ = Except.ok
      ⟨exCam.image_size.x,
        ⌊((⟨1/2, 0, 5⟩ : Vec3).y / exCam.canvas_size.y + 1/2) *
          (exCam.image_size.y : ℚ)⌋⟩ ∧
    exBuf8.write_buf (exCam.image_size.x).toNat 0 blankC =
      Except.error FrameBufError.PixelOutsideBuf := by
  have h := C10_edge_ndc_escapes exCam ⟨1/2, 0, 5⟩
    (by norm_num [exCam, Camera.new])
    (by norm_num [exCam, Camera.new])
    (by norm_num [exCam, Camera.new])
  exact ⟨h.1, h.2 exBuf8 (by simp only [exCam, Camera.new, exBuf8]; decide) 0 blankC⟩

/-- C8: for positive aperture, focal length, resolution and near plane,
the canvas computed by `Camera::new` under `Fill` is component-wise at
most the canvas computed under `Overscan`: `Fill` scales the wider branch
down by `res/film` (or `film/res`), `Overscan` scales the other branch
up by the reciprocal ratio. -/
theorem C8_fill_le_overscan (m : Matrix44) (image : Vec2 ℤ) (f : ℚ)
    (ap : Vec2 ℚ) (near far : ℚ) (hax : 0 < ap.x) (hay : 0 < ap.y)
    (hf : 0 < f) (hw : 0 < image.x) (hh : 0 < image.y) (hn : 0 < near) :
    (Camera.new m image f ap near far FitResolutionGate.Fill).canvas_size.x ≤
      (Camera.new m image f ap near far FitResolutionGate.Overscan).canvas_size.x ∧
    (Camera.new m image f ap near far FitResolutionGate.Fill).canvas_size.y ≤
      (Camera.new m image f ap near far FitResolutionGate.Overscan).canvas_size.y := by
  have hwq : (0 : ℚ) < (image.x : ℚ) := by exact_mod_cast hw
  have hhq : (0 : ℚ) < (image.y : ℚ) := by exact_mod_cast hh
  have hfilm : 0 < ap.x / ap.y := div_pos hax hay
  have hres : 0 < (image.x : ℚ) / (image.y : ℚ) := div_pos hwq hhq
  have hch : 0 < ap.y / 2 / f * near := by positivity
  have hkey1 : ap.x / ap.y * ((image.x : ℚ) / (image.y : ℚ) / (ap.x / ap.y)) =
      (image.x : ℚ) / (image.y : ℚ) := by
    field_simp
    ring
  constructor <;>
  · simp only [Camera.new]
    split_ifs with hgt
    · dsimp only
      first
      | -- x component, film > res: Fill gives h0·res, Overscan h0·film
        calc ap.y / 2 / f * near * (ap.x / ap.y) *
              ((image.x : ℚ) / (image.y : ℚ) / (ap.x / ap.y))
            = ap.y / 2 / f * near * ((image.x : ℚ) / (image.y : ℚ)) := by
              rw [mul_assoc, hkey1]
          _ ≤ ap.y / 2 / f * near * (ap.x / ap.y) := by
              exact mul_le_mul_of_nonneg_left hgt.le hch.le
          _ = ap.y / 2 / f * near * (ap.x / ap.y) * 1 := by rw [mul_one]
      | -- y component, film > res: Fill gives h0·1, Overscan h0·(film/res)
        calc ap.y / 2 / f * near * 1
            = ap.y / 2 / f * near := by rw [mul_one]
          _ ≤ ap.y / 2 / f * near * (ap.x / ap.y / ((image.x : ℚ) / (image.y : ℚ))) := by
              nth_rewrite 1 [← mul_one (ap.y / 2 / f * near)]
              refine mul_le_mul_of_nonneg_left ?_ hch.le
              rw [le_div_iff₀ hres]
              linarith
    · dsimp only
      push_neg at hgt
      first
      | -- x component, film ≤ res: Fill gives h0·film, Overscan h0·res
        calc ap.y / 2 / f * near * (ap.x / ap.y) * 1
            = ap.y / 2 / f * near * (ap.x / ap.y) := by rw [mul_one]
          _ ≤ ap.y / 2 / f * near * ((image.x : ℚ) / (image.y : ℚ)) := by
              exact mul_le_mul_of_nonneg_left hgt hch.le
          _ = ap.y / 2 / f * near * (ap.x / ap.y) *
              ((image.x : ℚ) / (image.y : ℚ) / (ap.x / ap.y)) :=
              (show ap.y / 2 / f * near * (ap.x / ap.y) *
                  ((image.x : ℚ) / (image.y : ℚ) / (ap.x / ap.y)) =
                  ap.y / 2 / f * near * ((image.x : ℚ) / (image.y : ℚ)) by
                rw [mul_assoc, hkey1]).symm
      | -- y component, film ≤ res: Fill gives h0·(film/res), Overscan h0·1
        calc ap.y / 2 / f * near * (ap.x / ap.y / ((image.x : ℚ) / (image.y : ℚ)))
            ≤ ap.y / 2 / f * near * 1 := by
              refine mul_le_mul_of_nonneg_left ?_ hch.le
              rw [div_le_one hres]
              exact hgt

/-- C8 witness: the 36×24 mm aperture with an 800×600 image — `Fill`'s
canvas is component-wise at most `Overscan`'s. -/
theorem C8_fill_le_overscan_witness :
    (0 : ℚ) < 36 ∧ (0 : ℚ) < 24 ∧ (0 : ℚ) < 50 ∧ (0 : ℤ) < 800 ∧
    (0 : ℤ) < 600 ∧ (0 : ℚ) < 1/10 ∧
    ((Camera.new ⟨fun _ _ => 1⟩ ⟨800, 600⟩ 50 ⟨36, 24⟩ (1/10) 100
        FitResolutionGate.Fill).canvas_size.x ≤
      (Camera.new ⟨fun _ _ => 1⟩ ⟨800, 600⟩ 50 ⟨36, 24⟩ (1/10) 100
        FitResolutionGate.Overscan).canvas_size.x ∧
    (Camera.new ⟨fun _ _ => 1⟩ ⟨800, 600⟩ 50 ⟨36, 24⟩ (1/10) 100
        FitResolutionGate.Fill).canvas_size.y ≤
      (Camera.new ⟨fun _ _ => 1⟩ ⟨800, 600⟩ 50 ⟨36, 24⟩ (1/10) 100
        FitResolutionGate.Overscan).canvas_size.y) :=
  ⟨by norm_num, by norm_num, by norm_num, by norm_num, by norm_num, by norm_num,
    C8_fill_le_overscan ⟨fun _ _ => 1⟩ ⟨800, 600⟩ 50 ⟨36, 24⟩ (1/10) 100
      (by norm_num) (by norm_num) (by norm_num) (by norm_num) (by norm_num)
      (by norm_num)⟩
